import Mathlib

/-!
# Application Tracking System: status workflow and audit trail

A shallow embedding of the server side of the repository:

* `src/server/models/Application.js`  (schema, validators, pre-save hook)
* `src/server/routes/applications.js` (create, generic status update)
* `src/server/routes/admin.js`        (manual status update)
* `src/server/routes/bot.js`          (bot automation pass)

The collection is a list of documents.  A handler is a function from the
collection and the request to the reply and the collection afterwards.
Everything a handler reads from outside (the clock, `Math.random()`, whether
the database accepts a write) is an explicit input, `Env`.  The users are seen
through `populate`: `names` gives the name of the user an `applicantId` refers
to, or nothing when there is no such user.

Conventions for JavaScript values:

* a field that may be `undefined` is an `Option`; `none` is "absent";
* request fields are strings where the API documents a string, so a status
  in a request body is `Option String`;
* `experience` is a whole number of years (the client sends `parseInt`).
-/

namespace ATS

/-! ## Data model (`models/Application.js`) -/

/-- The enum of `authorRole` and `byRole`, and the role of an identity. -/
inductive Role where
  | applicant
  | admin
  | bot
  deriving DecidableEq, Repr

/-- An element of `comments` (schema lines 40-56). -/
structure Comment where
  text : String
  authorRole : Role
  timestamp : Nat
  deriving DecidableEq, Repr

/-- An element of `logs` (schema lines 57-82). -/
structure LogEntry where
  action : String
  oldStatus : Option String
  newStatus : Option String
  byRole : Role
  timestamp : Nat
  comment : Option String
  deriving DecidableEq, Repr

/-- An Application document (schema lines 3-87).  `status`, `experience` and
`additionalNotes` are the paths that can be absent from a stored document. -/
structure Application where
  _id : Nat
  applicantId : Nat
  jobRole : Nat
  isTechnical : Bool
  experience : Option Int
  skills : List String
  additionalNotes : Option String
  status : Option String
  comments : List Comment
  logs : List LogEntry
  deriving DecidableEq, Repr

/-- The `enum` of the `status` path (schema line 37). -/
def statusEnum : List String :=
  ["Applied", "Reviewed", "Interview", "Offer", "Rejected"]

/-- The characters `String.prototype.trim` removes: the white space and the
line terminators of ECMAScript. -/
def jsWhiteSpace (c : Char) : Bool :=
  let n := c.toNat
  n == 0x9 || n == 0xA || n == 0xB || n == 0xC || n == 0xD || n == 0x20 || n == 0xA0 ||
    n == 0x1680 || (0x2000 ≤ n && n ≤ 0x200A) || n == 0x2028 || n == 0x2029 ||
    n == 0x202F || n == 0x205F || n == 0x3000 || n == 0xFEFF

/-- The setter `trim: true` of a string path. -/
def jsTrim (s : String) : String :=
  ⟨((s.data.dropWhile jsWhiteSpace).reverse.dropWhile jsWhiteSpace).reverse⟩

/-- Validators of one comment: `text` is required (a non-empty string); the
enum of `authorRole` holds by typing. -/
def validComment (c : Comment) : Bool :=
  c.text != ""

/-- Validators of one log entry: `action` is required; the enum of `byRole`
holds by typing. -/
def validLog (l : LogEntry) : Bool :=
  l.action != ""

/-- Schema validation as `save()` runs it.  `experience` is required with
`min: 0`.  `status` has an `enum` and is not required, and a validator other
than `required` is not run on an absent value, so an absent status passes. -/
def validate (a : Application) : Bool :=
  (match a.experience with
    | none => false
    | some e => decide (0 ≤ e)) &&
  (match a.status with
    | none => true
    | some s => statusEnum.contains s) &&
  a.comments.all validComment &&
  a.logs.all validLog

/-- The hook `applicationSchema.pre("save")` (lines 89-107).  `skills` is an
array by typing, so the second branch of the hook never fires. -/
def preSave (a : Application) : Application :=
  { a with
    experience := (match a.experience with
      | none => some 0
      | some e => some e)
    additionalNotes := (match a.additionalNotes with
      | none => some ""
      | some n => some n) }

/-- What one handler invocation reads from outside the collection: the value
of `Date.now` for the subdocuments it builds, whether the database accepts
the write of `save()`, and the value of `Math.random()`. -/
structure Env where
  now : Nat
  writeOk : Bool
  random : Rat

/-- The call `document.save()`: validation runs first, then the pre-save hook,
then the write.  `none` is a rejected promise (nothing is written). -/
def save (writeOk : Bool) (a : Application) : Option Application :=
  if validate a && writeOk then some (preSave a) else none

/-- A stored document as a query returns it: the schema default of `status`
(line 38) fills the path when the stored document lacks it. -/
def hydrate (a : Application) : Application :=
  { a with
    status := (match a.status with
      | none => some "Applied"
      | some s => some s) }

/-- The query `Application.findById(id)`. -/
def findById (store : List Application) (id : Nat) : Option Application :=
  (store.find? (fun a => a._id == id)).map hydrate

/-- The query `Application.findOne` on applicantId and jobRole. -/
def findOne (store : List Application) (applicantId jobRole : Nat) : Option Application :=
  (store.find? (fun a => a.applicantId == applicantId && a.jobRole == jobRole)).map hydrate

/-- The write of `save()` on a document that came from a query: the stored
document with that `_id` is replaced. -/
def updateOne : List Application → Application → List Application
  | [], _ => []
  | a :: rest, doc => if a._id == doc._id then doc :: rest else a :: updateOne rest doc

/-- The `_id` a new document gets: one that no stored document has. -/
def nextId (store : List Application) : Nat :=
  (store.map (fun a => a._id)).foldr max 0 + 1

/-! ## Replies and the role gate -/

/-- The reply of a single-record handler: `res.status(code).json(...)`. -/
structure Reply where
  code : Nat
  message : String
  application : Option Application
  deriving DecidableEq, Repr

/-- Modelled from the spec: `roleMiddleware` of `middleware/authMiddleware`,
which is not among the sources.  Section 4.2 of the spec gives a table of
allowed roles per surface; the request passes when the role is listed. -/
def roleMiddleware (allowed : List Role) (role : Role) : Bool :=
  allowed.contains role

/-- The 403 reply of the role gate (documented in the swagger blocks). -/
def forbidden : Reply :=
  ⟨403, "Forbidden", none⟩

/-- The reply of every `catch` block of the single-record handlers. -/
def serverError : Reply :=
  ⟨500, "Server error", none⟩

/-- JavaScript truthiness of an optional string. -/
def truthy (s : Option String) : Bool :=
  match s with
  | none => false
  | some t => t != ""

/-- A value inside a template literal. -/
def jsStr (s : Option String) : String :=
  s.getD "undefined"

/-! ## `POST /api/applications` (`routes/applications.js` lines 123-180) -/

/-- The request body; the handler reads five fields and ignores the rest,
`status` among them.  `experience` is restricted to the whole numbers a double
holds exactly (the client sends `parseInt`); fractions and numbers beyond
2^53 are outside this type. -/
structure CreateBody where
  jobRole : Nat
  isTechnical : Option Bool
  experience : Option Int
  skills : Option (List String)
  additionalNotes : Option String
  status : Option String
  deriving DecidableEq, Repr

/-- The document `new Application(...)` of lines 144-160. -/
def newApplication (id userId : Nat) (body : CreateBody) (now : Nat) : Application :=
  { _id := id
    applicantId := userId
    jobRole := body.jobRole
    isTechnical := body.isTechnical.getD false
    experience := body.experience
    skills := (body.skills.getD []).map jsTrim
    additionalNotes := some (jsTrim (body.additionalNotes.getD ""))
    status := some "Applied"
    comments := []
    logs := [
      { action := "Application Created"
        oldStatus := none
        newStatus := some "Applied"
        byRole := Role.applicant
        timestamp := now
        comment := some "Application submitted with detailed information" }] }

/-- The handler of `router.post("/")`. -/
def createApplication (store : List Application) (role : Role) (userId : Nat)
    (body : CreateBody) (env : Env) : Reply × List Application :=
  if roleMiddleware [Role.applicant] role then
    match findOne store userId body.jobRole with
    | some _ => (⟨400, "You have already applied for this job position", none⟩, store)
    | none =>
      match save env.writeOk (newApplication (nextId store) userId body env.now) with
      | none => (serverError, store)
      | some saved => (⟨201, "Application created successfully", some saved⟩, store ++ [saved])
  else (forbidden, store)

/-! ## Status updates -/

/-- The body of both PATCH requests.  `status` is a string or absent; a JSON
`null` and values of other types are outside this type. -/
structure UpdateBody where
  status : Option String
  comment : Option String
  deriving DecidableEq, Repr

/-- Lines 268-286 of `routes/admin.js` and 306-324 of `routes/applications.js`:
assign the status, push the log entry, push the comment when there is one.
The two handlers differ in the action, the default log text and the role. -/
def applyUpdate (application : Application) (action word : String) (byRole : Role)
    (body : UpdateBody) (now : Nat) : Application :=
  let oldStatus := application.status
  let logged : Application :=
    { application with
      status := body.status
      logs := application.logs ++ [
        { action := action
          oldStatus := oldStatus
          newStatus := body.status
          byRole := byRole
          timestamp := now
          comment := some (if truthy body.comment then jsStr body.comment
            else word ++ jsStr oldStatus ++ " to " ++ jsStr body.status) }] }
  if truthy body.comment then
    { logged with
      comments := logged.comments ++ [⟨jsStr body.comment, byRole, now⟩] }
  else logged

/-- The handler of `router.patch("/applications/:id/update-status")`
(`routes/admin.js` lines 248-300). -/
def updateStatusManual (store : List Application) (role : Role) (id : Nat)
    (body : UpdateBody) (env : Env) : Reply × List Application :=
  if roleMiddleware [Role.admin] role then
    match findById store id with
    | none => (⟨404, "Application not found", none⟩, store)
    | some application =>
      if application.isTechnical then
        (⟨400, "Cannot manually update technical applications", none⟩, store)
      else
        match save env.writeOk (applyUpdate application "Manual Status Update"
            "Status manually changed from " Role.admin body env.now) with
        | none => (serverError, store)
        | some saved =>
          (⟨200, "Application status updated successfully", some saved⟩, updateOne store saved)
  else (forbidden, store)

/-- The handler of `router.patch("/:id")` (`routes/applications.js` lines
292-338). -/
def updateStatus (store : List Application) (role : Role) (id : Nat)
    (body : UpdateBody) (env : Env) : Reply × List Application :=
  if roleMiddleware [Role.admin, Role.bot] role then
    match findById store id with
    | none => (⟨404, "Application not found", none⟩, store)
    | some application =>
      match save env.writeOk (applyUpdate application "Status Updated"
          "Status changed from " role body env.now) with
      | none => (serverError, store)
      | some saved =>
        (⟨200, "Application updated successfully", some saved⟩, updateOne store saved)
  else (forbidden, store)

/-! ## `POST /api/bot/trigger` (`routes/bot.js` lines 26-139) -/

/-- An element of `automationResults` (lines 103-110). -/
structure AutomationResult where
  applicationId : Nat
  applicantName : String
  jobRole : Nat
  oldStatus : Option String
  newStatus : String
  comment : String
  deriving DecidableEq, Repr

/-- The reply of the trigger handler. -/
structure BotReply where
  code : Nat
  message : String
  processedApplications : Nat
  results : List AutomationResult
  deriving DecidableEq, Repr

/-- The filter of the query of lines 33-36, on the stored document. -/
def isCandidate (a : Application) : Bool :=
  a.isTechnical && !(a.status == some "Offer" || a.status == some "Rejected")

/-- The `switch` of lines 54-73: the new status and the comment, or `none`
for the `default` branch. -/
def automationFlow (oldStatus : Option String) (random : Rat) : Option (String × String) :=
  if oldStatus = some "Applied" then
    some ("Reviewed", "Application automatically reviewed by bot system")
  else if oldStatus = some "Reviewed" then
    some ("Interview", "Interview scheduled automatically")
  else if oldStatus = some "Interview" then
    let newStatus := if random > 3 / 10 then "Offer" else "Rejected"
    some (newStatus,
      if newStatus = "Offer" then "Interview passed - Offer extended automatically"
      else "Interview did not meet requirements")
  else none

/-- Lines 75-91: the candidate with the new status, the log entry and the
comment pushed. -/
def advance (application : Application) (newStatus comment : String) (now : Nat) :
    Application :=
  { application with
    status := some newStatus
    logs := application.logs ++ [
      { action := "Bot Automation"
        oldStatus := application.status
        newStatus := some newStatus
        byRole := Role.bot
        timestamp := now
        comment := some comment }]
    comments := application.comments ++ [⟨comment, Role.bot, now⟩] }

/-- How one iteration of the loop of lines 40-111 ends: with `continue`, with
the push of lines 103-110, or with the TypeError of line 105, thrown when the
populated `applicantId` is null and `.name` is read. -/
inductive Iteration where
  | skipped
  | pushed (result : AutomationResult)
  | thrown
  deriving DecidableEq, Repr

/-- The result an iteration pushed, if it pushed one. -/
def Iteration.result? : Iteration → Option AutomationResult
  | Iteration.pushed result => some result
  | _ => none

/-- One iteration of the loop on one stored document: the document as stored
afterwards and how the iteration ends.  `names` is what `populate` finds for an
`applicantId`: the name of the user, or `none` when there is no such user and
the populated `applicantId` is null (the User model is not among the sources).
The name is read after `save()` and outside the inner `try`. -/
def processOne (names : Nat → Option String) (env : Env) (stored : Application) :
    Application × Iteration :=
  if isCandidate stored then
    let application := hydrate stored
    match application.experience with
    | none => (stored, Iteration.skipped)
    | some _ =>
      match automationFlow application.status env.random with
      | none => (stored, Iteration.skipped)
      | some (newStatus, comment) =>
        match save env.writeOk (advance application newStatus comment env.now) with
        | none => (stored, Iteration.skipped)
        | some saved =>
          match names application.applicantId with
          | none => (saved, Iteration.thrown)
          | some name =>
            (saved,
              Iteration.pushed ⟨application._id, name, application.jobRole,
                application.status, newStatus, comment⟩)
  else (stored, Iteration.skipped)

/-- The state of the handler when the loop ends: the collection, the array
`automationResults`, and whether the loop ended by a throw. -/
structure Pass where
  store : List Application
  results : List AutomationResult
  thrown : Bool

/-- The loop over the collection.  A candidate is a stored document, and
`save()` writes it back in its own place, so the loop is a traversal of the
collection; `env` is indexed by the `_id` of the candidate.  A throw ends the
loop: the documents after the one that threw are not visited. -/
def runBotPass (names : Nat → Option String) (env : Nat → Env) :
    List Application → Pass
  | [] => ⟨[], [], false⟩
  | stored :: rest =>
    match processOne names (env stored._id) stored with
    | (doc, Iteration.thrown) => ⟨doc :: rest, [], true⟩
    | (doc, Iteration.skipped) =>
      let there := runBotPass names env rest
      ⟨doc :: there.store, there.results, there.thrown⟩
    | (doc, Iteration.pushed result) =>
      let there := runBotPass names env rest
      ⟨doc :: there.store, result :: there.results, there.thrown⟩

/-- The handler of `router.post("/trigger")`.  A throw of the loop is caught
by the outer `catch` (lines 118-136), which answers 500 without results; what
was saved before the throw stays saved. -/
def botTrigger (store : List Application) (role : Role) (names : Nat → Option String)
    (env : Nat → Env) : BotReply × List Application :=
  if roleMiddleware [Role.bot] role then
    let pass := runBotPass names env store
    if pass.thrown then (⟨500, "Server error during bot automation", 0, []⟩, pass.store)
    else (⟨200, "Bot automation completed", pass.results.length, pass.results⟩, pass.store)
  else (⟨403, "Forbidden", 0, []⟩, store)

/-! ## Sequences of requests -/

/-- A request to one of the four mutating routes. -/
inductive Request where
  | create (role : Role) (userId : Nat) (body : CreateBody) (env : Env)
  | manual (role : Role) (id : Nat) (body : UpdateBody) (env : Env)
  | generic (role : Role) (id : Nat) (body : UpdateBody) (env : Env)
  | trigger (role : Role) (names : Nat → Option String) (env : Nat → Env)

/-- The collection after one request. -/
def serve (store : List Application) : Request → List Application
  | Request.create role userId body env => (createApplication store role userId body env).2
  | Request.manual role id body env => (updateStatusManual store role id body env).2
  | Request.generic role id body env => (updateStatus store role id body env).2
  | Request.trigger role names env => (botTrigger store role names env).2

/-- The collection after a sequence of requests, served one after another. -/
def run (store : List Application) (requests : List Request) : List Application :=
  requests.foldl serve store

/-- The `newStatus` of the last log entry that has one. -/
def lastLoggedStatus (logs : List LogEntry) : Option String :=
  (logs.reverse.find? (fun l => l.newStatus.isSome)).bind (fun l => l.newStatus)

/-! ## Predicates of the statements -/

/-- The four moves of the automation flow, as pairs of old and new status. -/
def legalBotMove (oldStatus newStatus : Option String) : Prop :=
  (oldStatus = some "Applied" ∧ newStatus = some "Reviewed") ∨
  (oldStatus = some "Reviewed" ∧ newStatus = some "Interview") ∨
  (oldStatus = some "Interview" ∧ newStatus = some "Offer") ∨
  (oldStatus = some "Interview" ∧ newStatus = some "Rejected")

/-- The document `after` is `before` with entries appended to its history. -/
def grows (before after : Application) : Prop :=
  after._id = before._id ∧ before.comments <+: after.comments ∧ before.logs <+: after.logs

/-- The pair that identifies an application: applicant and job role. -/
def keyOf (a : Application) : Nat × Nat :=
  (a.applicantId, a.jobRole)

/-- The stored status is one of the five values and the last log entry with
a newStatus carries it. -/
def consistent (a : Application) : Prop :=
  ∃ s ∈ statusEnum, a.status = some s ∧ lastLoggedStatus a.logs = some s

/-- The body of a status update has a `status` field. -/
def carriesStatus : Request → Bool
  | Request.manual _ _ body _ => body.status.isSome
  | Request.generic _ _ body _ => body.status.isSome
  | _ => true

/-! ## Sample data -/

/-- A clock reading, a database that accepts the write, a draw of one half. -/
def sampleEnv : Env :=
  ⟨1700000000, true, 1 / 2⟩

/-- The body of scenario 1 of the spec, with a stray `status` field. -/
def sampleCreate : CreateBody :=
  ⟨7, some false, some 3, some ["Go"], none, some "Offer"⟩

/-- The collection after applicant 1 has applied for job role 7. -/
def sampleStore : List Application :=
  (createApplication [] Role.applicant 1 sampleCreate sampleEnv).2

/-- A technical application at `Applied`. -/
def technicalApplication : Application :=
  { _id := 1
    applicantId := 1
    jobRole := 8
    isTechnical := true
    experience := some 2
    skills := ["Rust"]
    additionalNotes := some ""
    status := some "Applied"
    comments := []
    logs := [⟨"Application Created", none, some "Applied", Role.applicant, 1700000000,
      some "Application submitted with detailed information"⟩] }

/-- A technical application that the bot has taken to `Offer`. -/
def offeredApplication : Application :=
  { technicalApplication with
    _id := 2
    applicantId := 2
    status := some "Offer"
    logs := technicalApplication.logs ++ [
      ⟨"Bot Automation", some "Interview", some "Offer", Role.bot, 1700000500,
        some "Interview passed - Offer extended automatically"⟩] }

/-- A collection of two technical applications. -/
def technicalStore : List Application :=
  [technicalApplication, offeredApplication]

/-- Every applicant reference is populated with a user named Ada. -/
def sampleNames : Nat → Option String :=
  fun _ => some "Ada"

/-- The applicant of every application of the collection is found by
`populate`. -/
def populated (names : Nat → Option String) (store : List Application) : Prop :=
  ∀ a ∈ store, (names a.applicantId).isSome = true

/-- A technical application at `Applied` whose applicant is user 6. -/
def orphanApplication : Application :=
  { technicalApplication with
    _id := 6
    applicantId := 6 }

/-- A technical application at `Applied` whose applicant is user 7. -/
def laterApplication : Application :=
  { technicalApplication with
    _id := 7
    applicantId := 7 }

/-- User 6 does not exist; every other user is named Ada. -/
def orphanNames : Nat → Option String :=
  fun userId => if userId = 6 then none else some "Ada"

/-- A technical application at `Interview` whose stored document has no
`experience`. -/
def unratedApplication : Application :=
  { technicalApplication with
    _id := 8
    applicantId := 8
    experience := none
    status := some "Interview" }

/-- A non-technical application at `Applied` whose stored document has no
`experience`. -/
def legacyApplication : Application :=
  { technicalApplication with
    _id := 9
    applicantId := 9
    jobRole := 7
    isTechnical := false
    experience := none }

/-- A technical application at `Applied` whose stored document has no
`experience`. -/
def staleApplication : Application :=
  { technicalApplication with
    _id := 3
    applicantId := 3
    experience := none }

/-- A technical application that the bot has taken to `Interview`. -/
def interviewApplication : Application :=
  { technicalApplication with
    _id := 4
    applicantId := 4
    status := some "Interview" }

/-- A non-technical application that an admin has taken to `Offer`. -/
def closedApplication : Application :=
  { technicalApplication with
    _id := 5
    applicantId := 5
    jobRole := 7
    isTechnical := false
    status := some "Offer" }

/-- An environment in which the database rejects the write. -/
def failingEnv : Env :=
  ⟨1700000000, false, 1 / 2⟩

/-- How far a status is along the automation flow; an absent status is read
as `Applied`. -/
def stage (status : Option String) : Nat :=
  if status = some "Reviewed" then 1
  else if status = some "Interview" then 2
  else if status = some "Offer" ∨ status = some "Rejected" then 3
  else 0

/-! ## Job roles and the client request (`models/JobRole.js`, `Dashboard.jsx`) -/

/-- A JobRole document (`models/JobRole.js`). -/
structure JobRole where
  _id : Nat
  title : String
  description : Option String
  location : String
  experienceRequired : String
  isTechnical : Bool
  department : Option String
  deriving DecidableEq, Repr

/-- The body that `handleSubmitApplication` posts (`Dashboard.jsx` lines
163-169) for the selected job; `experience` is the value of `parseInt` (absent
when it is NaN, which JSON sends as null) and `skillsArray` the list the
handler has split and trimmed. -/
def handleSubmitApplication (selectedJob : JobRole) (experience : Option Int)
    (skillsArray : List String) (additionalNotes : String) : CreateBody :=
  { jobRole := selectedJob._id
    isTechnical := some selectedJob.isTechnical
    experience := experience
    skills := some skillsArray
    additionalNotes := some additionalNotes
    status := none }

/-- A technical job role. -/
def sampleJob : JobRole :=
  ⟨8, "Backend Engineer", none, "Remote", "2+ years", true, some "Engineering"⟩

/-! ## The pre-save hook on untyped values (`models/Application.js` lines 89-107) -/

/-- The JavaScript values a path of the document can hold when the hook runs. -/
inductive JsValue where
  | undefined
  | null
  | boolean (b : Bool)
  | number (n : Int)
  | string (s : String)
  | array (items : List String)
  deriving DecidableEq, Repr

/-- The test `Array.isArray`. -/
def JsValue.isArray : JsValue → Bool
  | JsValue.array _ => true
  | _ => false

/-- The test `typeof v === "string"`. -/
def JsValue.isString : JsValue → Bool
  | JsValue.string _ => true
  | _ => false

/-- The document `this` of the hook: the three paths the hook reads, as
JavaScript values, and the other paths. -/
structure HookDocument where
  _id : Nat
  applicantId : Nat
  jobRole : Nat
  isTechnical : Bool
  experience : JsValue
  skills : JsValue
  additionalNotes : JsValue
  status : Option String
  comments : List Comment
  logs : List LogEntry
  deriving DecidableEq, Repr

/-- The hook `applicationSchema.pre("save")`, statement by statement. -/
def preSaveHook (this : HookDocument) : HookDocument :=
  let first : HookDocument :=
    if this.experience = JsValue.undefined ∨ this.experience = JsValue.null then
      { this with experience := JsValue.number 0 }
    else this
  let second : HookDocument :=
    if !first.skills.isArray then { first with skills := JsValue.array [] } else first
  if !second.additionalNotes.isString then
    { second with additionalNotes := JsValue.string "" }
  else second

/-- A typed document as the hook sees it. -/
def toHookDocument (a : Application) : HookDocument :=
  { _id := a._id
    applicantId := a.applicantId
    jobRole := a.jobRole
    isTechnical := a.isTechnical
    experience := (match a.experience with
      | none => JsValue.undefined
      | some e => JsValue.number e)
    skills := JsValue.array a.skills
    additionalNotes := (match a.additionalNotes with
      | none => JsValue.undefined
      | some n => JsValue.string n)
    status := a.status
    comments := a.comments
    logs := a.logs }

/-! ## `GET /api/bot/logs` (`routes/bot.js` lines 191-224) -/

/-- An element of `botLogs` (lines 205-210): the application, the applicant
name, the job role and the fields of the log entry. -/
structure BotLog where
  applicationId : Nat
  applicantName : String
  jobRole : Nat
  action : String
  oldStatus : Option String
  newStatus : Option String
  byRole : Role
  timestamp : Nat
  comment : Option String
  deriving DecidableEq, Repr

/-- The object pushed for one log entry of one application, `name` being
`app.applicantId.name`. -/
def toBotLog (name : String) (app : Application) (log : LogEntry) : BotLog :=
  { applicationId := app._id
    applicantName := name
    jobRole := app.jobRole
    action := log.action
    oldStatus := log.oldStatus
    newStatus := log.newStatus
    byRole := log.byRole
    timestamp := log.timestamp
    comment := log.comment }

/-- The key of the query sort on `logs.timestamp`, descending: the latest
timestamp of the logs, and a document without logs after every other one. -/
def logsSortKey (a : Application) : Nat :=
  (a.logs.map (fun l => l.timestamp + 1)).foldr max 0

/-- The query of lines 197-199: the technical applications, sorted on
`logs.timestamp` descending (documents with equal keys in stored order). -/
def findTechnicalSorted (store : List Application) : List Application :=
  ((store.filter (fun a => a.isTechnical)).map hydrate).insertionSort
    (fun a b => logsSortKey b ≤ logsSortKey a)

/-- The two `forEach` loops of lines 201-213 and the test of line 204: the
log entries with byRole bot, each with its application, in the order the loops
reach them. -/
def botEntries (applications : List Application) : List (Application × LogEntry) :=
  applications.flatMap
    (fun app => (app.logs.filter (fun log => log.byRole == Role.bot)).map
      (fun log => (app, log)))

/-- The pushes of lines 205-210, one per entry.  Each reads
`app.applicantId.name`; `none` is the TypeError thrown when the populated
`applicantId` is null. -/
def collectBotLogs (names : Nat → Option String) :
    List (Application × LogEntry) → Option (List BotLog)
  | [] => some []
  | (app, log) :: rest =>
    match names app.applicantId with
    | none => none
    | some name =>
      match collectBotLogs names rest with
      | none => none
      | some botLogs => some (toBotLog name app log :: botLogs)

/-- The `sort` of line 216: by timestamp, descending; the sort of JavaScript
is stable, as is the insertion sort. -/
def sortBotLogs (botLogs : List BotLog) : List BotLog :=
  botLogs.insertionSort (fun a b => b.timestamp ≤ a.timestamp)

/-- The handler of `router.get("/logs")`: the status code and the array.  A
throw of the loops is caught by the `catch` of lines 219-222, which answers
500 without a listing. -/
def getBotLogs (store : List Application) (role : Role) (names : Nat → Option String) :
    Nat × List BotLog :=
  if roleMiddleware [Role.bot] role then
    match collectBotLogs names (botEntries (findTechnicalSorted store)) with
    | none => (500, [])
    | some botLogs => (200, sortBotLogs botLogs)
  else (403, [])

/-- The document `after` has the identity of `before`. -/
def sameIdentity (before after : Application) : Prop :=
  after._id = before._id ∧ after.applicantId = before.applicantId ∧
    after.jobRole = before.jobRole ∧ after.isTechnical = before.isTechnical

/-! ## Lemmas on `save`, the updates and the bot pass -/

theorem save_eq_some {w : Bool} {a b : Application} (h : save w a = some b) :
    b = preSave a ∧ validate a = true ∧ w = true := by
  unfold save at h
  split at h
  · rename_i hv
    simp only [Bool.and_eq_true] at hv
    exact ⟨(Option.some.inj h).symm, hv.1, hv.2⟩
  · exact absurd h (by simp)

theorem save_of_invalid {w : Bool} {a : Application} (h : validate a = false) :
    save w a = none := by
  simp [save, h]

theorem validate_newApplication (id userId : Nat) (body : CreateBody) (now : Nat) (e : Int)
    (he : body.experience = some e) (h0 : 0 ≤ e) :
    validate (newApplication id userId body now) = true := by
  simp [validate, newApplication, he, h0, statusEnum, validLog]

theorem applyUpdate_status (a : Application) (action word : String) (r : Role)
    (body : UpdateBody) (now : Nat) :
    (applyUpdate a action word r body now).status = body.status := by
  unfold applyUpdate
  by_cases h : truthy body.comment = true <;> simp [h]

theorem applyUpdate_logs (a : Application) (action word : String) (r : Role)
    (body : UpdateBody) (now : Nat) :
    (applyUpdate a action word r body now).logs = a.logs ++ [
      { action := action
        oldStatus := a.status
        newStatus := body.status
        byRole := r
        timestamp := now
        comment := some (if truthy body.comment then jsStr body.comment
          else word ++ jsStr a.status ++ " to " ++ jsStr body.status) }] := by
  unfold applyUpdate
  by_cases h : truthy body.comment = true <;> simp [h]

theorem applyUpdate_comments (a : Application) (action word : String) (r : Role)
    (body : UpdateBody) (now : Nat) :
    (applyUpdate a action word r body now).comments =
      if truthy body.comment then a.comments ++ [⟨jsStr body.comment, r, now⟩]
      else a.comments := by
  unfold applyUpdate
  by_cases h : truthy body.comment = true <;> simp [h]

theorem applyUpdate_frame (a : Application) (action word : String) (r : Role)
    (body : UpdateBody) (now : Nat) :
    (applyUpdate a action word r body now)._id = a._id ∧
    (applyUpdate a action word r body now).applicantId = a.applicantId ∧
    (applyUpdate a action word r body now).jobRole = a.jobRole ∧
    (applyUpdate a action word r body now).isTechnical = a.isTechnical ∧
    (applyUpdate a action word r body now).experience = a.experience := by
  unfold applyUpdate
  by_cases h : truthy body.comment = true <;> simp [h]

theorem validate_applyUpdate_of_unknown (a : Application) (action word : String) (r : Role)
    (body : UpdateBody) (now : Nat) (s : String) (hs : body.status = some s)
    (hn : s ∉ statusEnum) : validate (applyUpdate a action word r body now) = false := by
  unfold validate
  rw [applyUpdate_status, hs]
  simp [hn]

theorem automationFlow_legal {o : Option String} {r : Rat} {ns c : String}
    (h : automationFlow o r = some (ns, c)) : legalBotMove o (some ns) := by
  unfold automationFlow at h
  split at h
  · rename_i h1
    simp only [Option.some.injEq, Prod.mk.injEq] at h
    exact Or.inl ⟨h1, by rw [h.1]⟩
  · split at h
    · rename_i h2
      simp only [Option.some.injEq, Prod.mk.injEq] at h
      exact Or.inr (Or.inl ⟨h2, by rw [h.1]⟩)
    · split at h
      · rename_i h3
        simp only [Option.some.injEq, Prod.mk.injEq] at h
        by_cases hr : r > 3 / 10
        · simp only [hr, if_true] at h
          exact Or.inr (Or.inr (Or.inl ⟨h3, by rw [h.1]⟩))
        · simp only [hr, if_false] at h
          exact Or.inr (Or.inr (Or.inr ⟨h3, by rw [h.1]⟩))
      · exact absurd h (by simp)

theorem processOne_cases (names : Nat → Option String) (env : Env) (a : Application) :
    processOne names env a = (a, Iteration.skipped) ∨
    ∃ ns c, isCandidate a = true ∧
      automationFlow (hydrate a).status env.random = some (ns, c) ∧
      save env.writeOk (advance (hydrate a) ns c env.now)
        = some (preSave (advance (hydrate a) ns c env.now)) ∧
      ((names a.applicantId = none ∧
          processOne names env a
            = (preSave (advance (hydrate a) ns c env.now), Iteration.thrown)) ∨
        ∃ name, names a.applicantId = some name ∧
          processOne names env a =
            (preSave (advance (hydrate a) ns c env.now),
              Iteration.pushed
                ⟨a._id, name, a.jobRole, (hydrate a).status, ns, c⟩)) := by
  unfold processOne
  by_cases hc : isCandidate a = true
  · simp only [hc, if_true]
    cases he : (hydrate a).experience with
    | none => exact Or.inl rfl
    | some e =>
      cases hf : automationFlow (hydrate a).status env.random with
      | none => exact Or.inl rfl
      | some p =>
        obtain ⟨ns, c⟩ := p
        cases hs : save env.writeOk (advance (hydrate a) ns c env.now) with
        | none => exact Or.inl (by simp [hs])
        | some saved =>
          have := (save_eq_some hs).1
          subst this
          refine Or.inr ⟨ns, c, by simp, rfl, hs, ?_⟩
          have hid : (hydrate a).applicantId = a.applicantId := rfl
          cases hn : names a.applicantId with
          | none =>
            refine Or.inl ⟨rfl, ?_⟩
            simp only [hs, hid, hn]
          | some name =>
            refine Or.inr ⟨name, rfl, ?_⟩
            simp only [hs, hid, hn]
            rfl
  · simp [hc]

/-- The document an iteration stores: the one it read, or the saved one. -/
theorem processOne_fst_cases (names : Nat → Option String) (env : Env) (a : Application) :
    (processOne names env a).1 = a ∨
    ∃ ns c, isCandidate a = true ∧
      automationFlow (hydrate a).status env.random = some (ns, c) ∧
      (processOne names env a).1 = preSave (advance (hydrate a) ns c env.now) := by
  rcases processOne_cases names env a with h | ⟨ns, c, hc, hf, _, ⟨_, h⟩ | ⟨_, _, h⟩⟩
  · exact Or.inl (by rw [h])
  · exact Or.inr ⟨ns, c, hc, hf, by rw [h]⟩
  · exact Or.inr ⟨ns, c, hc, hf, by rw [h]⟩

theorem forall₂_getElem? {α β : Type} {R : α → β → Prop} {l : List α} {l2 : List β}
    (h : List.Forall₂ R l l2) :
    ∀ (i : Nat) (a : α), l[i]? = some a → ∃ b, l2[i]? = some b ∧ R a b := by
  induction h with
  | nil => intro i a h; simp at h
  | cons hab _ ih =>
    intro i a h
    cases i with
    | zero =>
      simp only [List.getElem?_cons_zero, Option.some.injEq] at h
      subst h
      exact ⟨_, by simp, hab⟩
    | succ j =>
      simp only [List.getElem?_cons_succ] at h
      obtain ⟨b, hb, hr⟩ := ih j a h
      exact ⟨b, by simpa using hb, hr⟩

theorem forall₂_mem_right {α β : Type} {R : α → β → Prop} {l : List α} {l2 : List β}
    (h : List.Forall₂ R l l2) : ∀ b ∈ l2, ∃ a ∈ l, R a b := by
  induction h with
  | nil => intro b hb; simp at hb
  | cons hab _ ih =>
    intro b hb
    rcases List.mem_cons.mp hb with h1 | h1
    · subst h1
      exact ⟨_, List.mem_cons_self _ _, hab⟩
    · obtain ⟨a, ha, hr⟩ := ih b h1
      exact ⟨a, List.mem_cons_of_mem _ ha, hr⟩

theorem forall₂_mem_left {α β : Type} {R : α → β → Prop} {l : List α} {l2 : List β}
    (h : List.Forall₂ R l l2) : ∀ a ∈ l, ∃ b ∈ l2, R a b := by
  induction h with
  | nil => intro a ha; simp at ha
  | cons hab _ ih =>
    intro a ha
    rcases List.mem_cons.mp ha with h1 | h1
    · subst h1
      exact ⟨_, List.mem_cons_self _ _, hab⟩
    · obtain ⟨b, hb, hr⟩ := ih a h1
      exact ⟨b, List.mem_cons_of_mem _ hb, hr⟩

theorem forall₂_map_eq {α γ : Type} (g : α → γ) {l l2 : List α}
    (h : List.Forall₂ (fun a b => g b = g a) l l2) : l2.map g = l.map g := by
  induction h with
  | nil => rfl
  | cons hab _ ih => simp [hab, ih]

/-- What a pass does to the collection, place by place: the document is the
one stored before (it was not reached, or the iteration left it alone) or the
one its iteration stored. -/
theorem runBotPass_forall₂ (names : Nat → Option String) (env : Nat → Env)
    (store : List Application) :
    List.Forall₂ (fun a b => b = a ∨ b = (processOne names (env a._id) a).1)
      store (runBotPass names env store).store := by
  induction store with
  | nil => exact List.Forall₂.nil
  | cons a rest ih =>
    unfold runBotPass
    cases hp : processOne names (env a._id) a with
    | mk doc how =>
      cases how with
      | skipped =>
        exact List.Forall₂.cons (Or.inr (by rw [hp])) ih
      | pushed result =>
        exact List.Forall₂.cons (Or.inr (by rw [hp])) ih
      | thrown =>
        exact List.Forall₂.cons (Or.inr (by rw [hp]))
          (List.forall₂_same.mpr (fun x _ => Or.inl rfl))

theorem botTrigger_forall₂ (store : List Application) (role : Role)
    (names : Nat → Option String) (env : Nat → Env) :
    List.Forall₂ (fun a b => b = a ∨ b = (processOne names (env a._id) a).1)
      store (botTrigger store role names env).2 := by
  by_cases hg : roleMiddleware [Role.bot] role = true
  · by_cases ht : (runBotPass names env store).thrown = true
    · simp only [botTrigger, hg, ht, if_true]
      exact runBotPass_forall₂ names env store
    · simp only [botTrigger, hg, ht, if_true]
      exact runBotPass_forall₂ names env store
  · simp only [botTrigger, hg]
    exact List.forall₂_same.mpr (fun x _ => Or.inl rfl)

theorem runBotPass_results (names : Nat → Option String) (env : Nat → Env)
    (store : List Application) :
    ∀ r ∈ (runBotPass names env store).results,
      ∃ a ∈ store, (processOne names (env a._id) a).2 = Iteration.pushed r := by
  induction store with
  | nil => intro r hr; simp [runBotPass] at hr
  | cons a rest ih =>
    intro r hr
    unfold runBotPass at hr
    cases hp : processOne names (env a._id) a with
    | mk doc how =>
      rw [hp] at hr
      cases how with
      | skipped =>
        obtain ⟨b, hb, hres⟩ := ih r hr
        exact ⟨b, List.mem_cons_of_mem _ hb, hres⟩
      | pushed result =>
        rcases List.mem_cons.mp hr with h1 | h1
        · subst h1
          exact ⟨a, List.mem_cons_self _ _, by rw [hp]⟩
        · obtain ⟨b, hb, hres⟩ := ih r h1
          exact ⟨b, List.mem_cons_of_mem _ hb, hres⟩
      | thrown => simp at hr

theorem botTrigger_results (store : List Application) (role : Role)
    (names : Nat → Option String) (env : Nat → Env) :
    ∀ r ∈ (botTrigger store role names env).1.results,
      ∃ a ∈ store, (processOne names (env a._id) a).2 = Iteration.pushed r := by
  intro r hr
  by_cases hg : roleMiddleware [Role.bot] role = true
  · by_cases ht : (runBotPass names env store).thrown = true
    · simp [botTrigger, hg, ht] at hr
    · simp only [botTrigger, hg, ht, if_true] at hr
      exact runBotPass_results names env store r hr
  · simp [botTrigger, hg] at hr

theorem processOne_id (names : Nat → Option String) (env : Env) (a : Application) :
    (processOne names env a).1._id = a._id := by
  rcases processOne_fst_cases names env a with h | ⟨ns, c, _, _, h⟩
  · rw [h]
  · rw [h]
    rfl

theorem processOne_result {names : Nat → Option String} {env : Env} {a : Application}
    {r : AutomationResult} (h : (processOne names env a).2 = Iteration.pushed r) :
    isCandidate a = true ∧ r.applicationId = a._id ∧
      legalBotMove r.oldStatus (some r.newStatus) := by
  rcases processOne_cases names env a with h0 | ⟨ns, c, hc, hf, _, ⟨_, h1⟩ | ⟨_, _, h1⟩⟩
  · rw [h0] at h
    exact absurd h (by simp)
  · rw [h1] at h
    exact absurd h (by simp)
  · rw [h1] at h
    simp only [Iteration.pushed.injEq] at h
    subst h
    exact ⟨hc, rfl, automationFlow_legal hf⟩

theorem processOne_logs (names : Nat → Option String) (env : Env) (a : Application) :
    (processOne names env a).1.logs = a.logs ∨
    ∃ e, (processOne names env a).1.logs = a.logs ++ [e] ∧ e.action = "Bot Automation" ∧
      e.byRole = Role.bot ∧ legalBotMove e.oldStatus e.newStatus := by
  rcases processOne_fst_cases names env a with h | ⟨ns, c, _, hf, h⟩
  · exact Or.inl (by rw [h])
  · refine Or.inr ⟨_, by rw [h]; rfl, rfl, rfl, automationFlow_legal hf⟩

theorem eq_of_id_eq {store : List Application} (hnd : (store.map (fun a => a._id)).Nodup)
    {a b : Application} (ha : a ∈ store) (hb : b ∈ store) (h : a._id = b._id) : a = b :=
  List.inj_on_of_nodup_map hnd ha hb h

theorem processOne_terminal (names : Nat → Option String) (env : Env) (a : Application)
    (ht : a.status = some "Offer" ∨ a.status = some "Rejected") :
    processOne names env a = (a, Iteration.skipped) := by
  have hc : isCandidate a = false := by
    rcases ht with h | h <;> simp [isCandidate, h]
  simp [processOne, hc]

theorem find?_eq_of_nodup {store : List Application} {a : Application}
    (hnd : (store.map (fun b => b._id)).Nodup) (hmem : a ∈ store) :
    store.find? (fun b => b._id == a._id) = some a := by
  cases hf : store.find? (fun b => b._id == a._id) with
  | none =>
    rw [List.find?_eq_none] at hf
    exact absurd (hf a hmem) (by simp)
  | some b =>
    have hb := List.mem_of_find?_eq_some hf
    have hid := List.find?_some hf
    simp only [beq_iff_eq] at hid
    rw [eq_of_id_eq hnd hb hmem hid]

theorem botTrigger_ids (store : List Application) (role : Role)
    (names : Nat → Option String) (env : Nat → Env) :
    (botTrigger store role names env).2.map (fun a => a._id)
      = store.map (fun a => a._id) := by
  apply forall₂_map_eq
  refine (botTrigger_forall₂ store role names env).imp ?_
  intro a b hab
  rcases hab with h | h
  · rw [h]
  · rw [h]
    exact processOne_id names (env a._id) a

/-- The document stored under the `_id` of `a` after a pass: `a` itself or the
document its iteration stored. -/
theorem find?_botTrigger (store : List Application) (role : Role)
    (names : Nat → Option String) (env : Nat → Env) (a : Application)
    (hnd : (store.map (fun b => b._id)).Nodup) (hmem : a ∈ store) :
    (botTrigger store role names env).2.find? (fun b => b._id == a._id) = some a ∨
    (botTrigger store role names env).2.find? (fun b => b._id == a._id)
      = some (processOne names (env a._id) a).1 := by
  have hnd2 : ((botTrigger store role names env).2.map (fun b => b._id)).Nodup := by
    rw [botTrigger_ids]
    exact hnd
  obtain ⟨b, hb, hab⟩ := forall₂_mem_left (botTrigger_forall₂ store role names env) a hmem
  have hfind := find?_eq_of_nodup hnd2 hb
  rcases hab with h | h
  · left
    rw [h] at hfind
    exact hfind
  · right
    rw [h, processOne_id] at hfind
    exact hfind

/-- A document that its iteration leaves alone is stored as it was and is not
among the results. -/
theorem untouched_of_processOne (store : List Application) (role : Role)
    (names : Nat → Option String) (env : Nat → Env) (a : Application)
    (hnd : (store.map (fun b => b._id)).Nodup) (hmem : a ∈ store)
    (hp : processOne names (env a._id) a = (a, Iteration.skipped)) :
    (botTrigger store role names env).2.find? (fun b => b._id == a._id) = some a ∧
    ∀ r ∈ (botTrigger store role names env).1.results, r.applicationId ≠ a._id := by
  constructor
  · rcases find?_botTrigger store role names env a hnd hmem with h | h
    · exact h
    · rw [h, hp]
  · intro r hr hid
    obtain ⟨b, hb, hres⟩ := botTrigger_results store role names env r hr
    have hrb := (processOne_result hres).2.1
    have hba : b = a := eq_of_id_eq hnd hb hmem (by rw [← hrb, hid])
    subst hba
    rw [hp] at hres
    exact absurd hres (by simp)

theorem updateOne_getElem? (store : List Application) (doc : Application) :
    ∀ (i : Nat) (a : Application), store[i]? = some a →
      (updateOne store doc)[i]? = some a ∨
      ((updateOne store doc)[i]? = some doc ∧
        store.find? (fun b => b._id == doc._id) = some a) := by
  induction store with
  | nil => intro i a h; simp at h
  | cons x rest ih =>
    intro i a h
    by_cases hx : (x._id == doc._id) = true
    · cases i with
      | zero =>
        simp only [List.getElem?_cons_zero, Option.some.injEq] at h
        subst h
        exact Or.inr ⟨by simp [updateOne, hx], by simp [List.find?, hx]⟩
      | succ j =>
        left
        simpa [updateOne, hx] using h
    · cases i with
      | zero =>
        left
        simpa [updateOne, hx] using h
      | succ j =>
        simp only [List.getElem?_cons_succ] at h
        rcases ih j a h with h1 | ⟨h1, h2⟩
        · left
          simpa [updateOne, hx] using h1
        · right
          exact ⟨by simpa [updateOne, hx] using h1, by simpa [List.find?, hx] using h2⟩

theorem updateOne_map {β : Type} (g : Application → β) (store : List Application)
    (doc s : Application) (hfind : store.find? (fun b => b._id == doc._id) = some s)
    (hg : g doc = g s) : (updateOne store doc).map g = store.map g := by
  induction store with
  | nil => rfl
  | cons x rest ih =>
    by_cases hx : (x._id == doc._id) = true
    · have : x = s := by simpa [List.find?, hx] using hfind
      subst this
      simp [updateOne, hx, hg]
    · have hrest : rest.find? (fun b => b._id == doc._id) = some s := by
        simpa [List.find?, hx] using hfind
      simp [updateOne, hx, ih hrest]

theorem findById_eq_some {store : List Application} {id : Nat} {a : Application}
    (h : findById store id = some a) :
    ∃ s, store.find? (fun b => b._id == id) = some s ∧ a = hydrate s ∧ s._id = id := by
  unfold findById at h
  cases hs : store.find? (fun b => b._id == id) with
  | none => simp [hs] at h
  | some s =>
    have hid := List.find?_some hs
    simp only [beq_iff_eq] at hid
    exact ⟨s, rfl, by simpa [hs] using h.symm, hid⟩

theorem grows_refl (a : Application) : grows a a :=
  ⟨rfl, List.prefix_refl _, List.prefix_refl _⟩

theorem grows_applyUpdate (s : Application) (action word : String) (r : Role)
    (body : UpdateBody) (now : Nat) :
    grows s (preSave (applyUpdate (hydrate s) action word r body now)) := by
  refine ⟨(applyUpdate_frame (hydrate s) action word r body now).1, ?_, ?_⟩
  · show s.comments <+: (applyUpdate (hydrate s) action word r body now).comments
    rw [applyUpdate_comments]
    split
    · exact List.prefix_append _ _
    · exact List.prefix_refl _
  · show s.logs <+: (applyUpdate (hydrate s) action word r body now).logs
    rw [applyUpdate_logs]
    exact List.prefix_append _ _

theorem grows_processOne (names : Nat → Option String) (env : Env) (a : Application) :
    grows a (processOne names env a).1 := by
  rcases processOne_fst_cases names env a with h | ⟨ns, c, _, _, h⟩
  · rw [h]
    exact grows_refl a
  · rw [h]
    exact ⟨rfl, List.prefix_append _ _, List.prefix_append _ _⟩

/-- What a single-record update does to the collection: nothing, or the
first document with that id is replaced by the saved one. -/
theorem update_cases (store : List Application) (id : Nat) (action word : String) (r : Role)
    (body : UpdateBody) (env : Env) (app : Application) (hfind : findById store id = some app)
    (out : List Application)
    (hout : out = store ∨ ∃ saved, save env.writeOk (applyUpdate app action word r body env.now)
      = some saved ∧ out = updateOne store saved) :
    out = store ∨ ∃ s, store.find? (fun b => b._id == id) = some s ∧
      out = updateOne store (preSave (applyUpdate (hydrate s) action word r body env.now)) ∧
      (preSave (applyUpdate (hydrate s) action word r body env.now))._id = id := by
  rcases hout with h | ⟨saved, hs, h⟩
  · exact Or.inl h
  · obtain ⟨s, hs1, hs2, hs3⟩ := findById_eq_some hfind
    subst hs2
    have := (save_eq_some hs).1
    subst this
    exact Or.inr ⟨s, hs1, h, by rw [← hs3]; exact (applyUpdate_frame _ _ _ _ _ _).1⟩

theorem manual_store (store : List Application) (role : Role) (id : Nat)
    (body : UpdateBody) (env : Env) :
    (updateStatusManual store role id body env).2 = store ∨
    ∃ s, store.find? (fun b => b._id == id) = some s ∧
      (updateStatusManual store role id body env).2 = updateOne store
        (preSave (applyUpdate (hydrate s) "Manual Status Update"
          "Status manually changed from " Role.admin body env.now)) ∧
      (preSave (applyUpdate (hydrate s) "Manual Status Update"
          "Status manually changed from " Role.admin body env.now))._id = id := by
  unfold updateStatusManual
  split
  · cases hfind : findById store id with
    | none => exact Or.inl rfl
    | some app =>
      simp only
      split
      · exact Or.inl rfl
      · apply update_cases store id _ _ _ body env app hfind
        cases hs : save env.writeOk (applyUpdate app "Manual Status Update"
            "Status manually changed from " Role.admin body env.now) with
        | none => exact Or.inl rfl
        | some saved => exact Or.inr ⟨saved, rfl, rfl⟩
  · exact Or.inl rfl

theorem generic_store (store : List Application) (role : Role) (id : Nat)
    (body : UpdateBody) (env : Env) :
    (updateStatus store role id body env).2 = store ∨
    ∃ s, store.find? (fun b => b._id == id) = some s ∧
      (updateStatus store role id body env).2 = updateOne store
        (preSave (applyUpdate (hydrate s) "Status Updated"
          "Status changed from " role body env.now)) ∧
      (preSave (applyUpdate (hydrate s) "Status Updated"
          "Status changed from " role body env.now))._id = id := by
  unfold updateStatus
  split
  · cases hfind : findById store id with
    | none => exact Or.inl rfl
    | some app =>
      simp only
      apply update_cases store id _ _ _ body env app hfind
      cases hs : save env.writeOk (applyUpdate app "Status Updated"
          "Status changed from " role body env.now) with
      | none => exact Or.inl rfl
      | some saved => exact Or.inr ⟨saved, rfl, rfl⟩
  · exact Or.inl rfl

theorem grows_updateOne (store : List Application) (id : Nat) (doc : Application)
    (hdoc : doc._id = id)
    (hg : ∀ s, store.find? (fun b => b._id == id) = some s → grows s doc)
    (i : Nat) (a : Application) (h : store[i]? = some a) :
    ∃ b, (updateOne store doc)[i]? = some b ∧ grows a b := by
  rcases updateOne_getElem? store doc i a h with h1 | ⟨h1, h2⟩
  · exact ⟨a, h1, grows_refl a⟩
  · rw [hdoc] at h2
    exact ⟨doc, h1, hg a h2⟩

theorem create_store (store : List Application) (role : Role) (userId : Nat)
    (body : CreateBody) (env : Env) :
    (createApplication store role userId body env).2 = store ∨
    (findOne store userId body.jobRole = none ∧
      (createApplication store role userId body env).2 =
        store ++ [preSave (newApplication (nextId store) userId body env.now)]) := by
  unfold createApplication
  split
  · cases hf : findOne store userId body.jobRole with
    | some d => exact Or.inl rfl
    | none =>
      cases hs : save env.writeOk (newApplication (nextId store) userId body env.now) with
      | none => exact Or.inl rfl
      | some saved =>
        have := (save_eq_some hs).1
        subst this
        exact Or.inr ⟨rfl, rfl⟩
  · exact Or.inl rfl

theorem keys_serve (store : List Application) (request : Request)
    (hnd : (store.map keyOf).Nodup) : ((serve store request).map keyOf).Nodup := by
  cases request with
  | create role userId body env =>
    rcases create_store store role userId body env with h1 | ⟨hnone, h1⟩
    · simp only [serve]; rw [h1]; exact hnd
    · simp only [serve]
      rw [h1, List.map_append, List.map_singleton]
      refine List.Nodup.append hnd (List.nodup_singleton _) ?_
      rw [List.disjoint_singleton]
      intro hmem
      rw [List.mem_map] at hmem
      obtain ⟨x, hx, hkey⟩ := hmem
      unfold findOne at hnone
      rw [Option.map_eq_none', List.find?_eq_none] at hnone
      have := hnone x hx
      have hk : x.applicantId = userId ∧ x.jobRole = body.jobRole := by
        simpa [keyOf, preSave, newApplication] using hkey
      simp [hk.1, hk.2] at this
  | manual role id body env =>
    rcases manual_store store role id body env with h1 | ⟨s, hs, h1, hid⟩
    · simp only [serve]; rw [h1]; exact hnd
    · simp only [serve]
      rw [h1, updateOne_map keyOf store _ s (by rw [hid]; exact hs)]
      · exact hnd
      · obtain ⟨_, h2, h3, _⟩ := applyUpdate_frame (hydrate s) "Manual Status Update"
          "Status manually changed from " Role.admin body env.now
        show ((applyUpdate _ _ _ _ _ _).applicantId, (applyUpdate _ _ _ _ _ _).jobRole) = _
        rw [h2, h3]
        rfl
  | generic role id body env =>
    rcases generic_store store role id body env with h1 | ⟨s, hs, h1, hid⟩
    · simp only [serve]; rw [h1]; exact hnd
    · simp only [serve]
      rw [h1, updateOne_map keyOf store _ s (by rw [hid]; exact hs)]
      · exact hnd
      · obtain ⟨_, h2, h3, _⟩ := applyUpdate_frame (hydrate s) "Status Updated"
          "Status changed from " role body env.now
        show ((applyUpdate _ _ _ _ _ _).applicantId, (applyUpdate _ _ _ _ _ _).jobRole) = _
        rw [h2, h3]
        rfl
  | trigger role names env =>
    simp only [serve]
    have hmap : (botTrigger store role names env).2.map keyOf = store.map keyOf := by
      apply forall₂_map_eq
      refine (botTrigger_forall₂ store role names env).imp ?_
      intro a b hab
      rcases hab with h | h
      · rw [h]
      · rw [h]
        rcases processOne_fst_cases names (env a._id) a with h2 | ⟨ns, c, _, _, h2⟩
        · rw [h2]
        · rw [h2]
          rfl
    rw [hmap]
    exact hnd

theorem keys_run (requests : List Request) :
    ∀ store : List Application, (store.map keyOf).Nodup →
      ((run store requests).map keyOf).Nodup := by
  induction requests with
  | nil => intro store h; exact h
  | cons r rest ih =>
    intro store h
    exact ih (serve store r) (keys_serve store r h)

theorem filter_key_length (A J : Nat) (store : List Application)
    (hnd : (store.map keyOf).Nodup) :
    (store.filter (fun a => a.applicantId == A && a.jobRole == J)).length ≤ 1 := by
  induction store with
  | nil => simp
  | cons x rest ih =>
    rw [List.map_cons, List.nodup_cons] at hnd
    by_cases hx : (x.applicantId == A && x.jobRole == J) = true
    · have hnil : rest.filter (fun a => a.applicantId == A && a.jobRole == J) = [] := by
        rw [List.filter_eq_nil_iff]
        intro a ha hk
        apply hnd.1
        rw [List.mem_map]
        refine ⟨a, ha, ?_⟩
        simp only [Bool.and_eq_true, beq_iff_eq] at hx hk
        simp [keyOf, hx.1, hx.2, hk.1, hk.2]
      simp [List.filter_cons, hx, hnil]
    · simpa [List.filter_cons, hx] using ih hnd.2

/-! ## The invariants when every update carries a status -/

theorem lastLoggedStatus_append (logs : List LogEntry) (e : LogEntry) (t : String)
    (h : e.newStatus = some t) : lastLoggedStatus (logs ++ [e]) = some t := by
  simp [lastLoggedStatus, List.find?, h]

theorem validate_status {a : Application} {t : String} (hv : validate a = true)
    (hs : a.status = some t) : t ∈ statusEnum := by
  unfold validate at hv
  rw [hs] at hv
  simp only [Bool.and_eq_true] at hv
  simpa using hv.1.1.2

theorem mem_updateOne {store : List Application} {doc b : Application}
    (h : b ∈ updateOne store doc) : b ∈ store ∨ b = doc := by
  induction store with
  | nil => simp [updateOne] at h
  | cons x rest ih =>
    by_cases hx : (x._id == doc._id) = true
    · have h2 : b = doc ∨ b ∈ rest := by
        simpa [updateOne, hx] using h
      rcases h2 with h3 | h3
      · exact Or.inr h3
      · exact Or.inl (List.mem_cons_of_mem _ h3)
    · have h2 : b = x ∨ b ∈ updateOne rest doc := by
        simpa [updateOne, hx] using h
      rcases h2 with h3 | h3
      · exact Or.inl (by rw [h3]; exact List.mem_cons_self _ _)
      · rcases ih h3 with h4 | h4
        · exact Or.inl (List.mem_cons_of_mem _ h4)
        · exact Or.inr h4

theorem automationFlow_enum {o : Option String} {r : Rat} {ns c : String}
    (h : automationFlow o r = some (ns, c)) : ns ∈ statusEnum := by
  rcases automationFlow_legal h with h1 | h1 | h1 | h1
  all_goals
    rw [Option.some.inj h1.2]
    decide

theorem consistent_applyUpdate (app : Application) (action word : String) (r : Role)
    (body : UpdateBody) (env : Env) (saved : Application) (hb : body.status.isSome = true)
    (hs : save env.writeOk (applyUpdate app action word r body env.now) = some saved) :
    consistent saved := by
  obtain ⟨h1, hv, _⟩ := save_eq_some hs
  obtain ⟨t, ht⟩ := Option.isSome_iff_exists.mp hb
  have hst : (applyUpdate app action word r body env.now).status = some t := by
    rw [applyUpdate_status, ht]
  subst h1
  refine ⟨t, validate_status hv hst, hst, ?_⟩
  show lastLoggedStatus (applyUpdate app action word r body env.now).logs = some t
  rw [applyUpdate_logs]
  exact lastLoggedStatus_append _ _ t ht

theorem consistent_processOne (names : Nat → Option String) (env : Env) (a : Application)
    (h : consistent a) : consistent (processOne names env a).1 := by
  rcases processOne_fst_cases names env a with h1 | ⟨ns, c, _, hf, h1⟩
  · rw [h1]
    exact h
  · rw [h1]
    exact ⟨ns, automationFlow_enum hf, rfl, lastLoggedStatus_append _ _ ns rfl⟩

theorem consistent_serve (store : List Application) (request : Request)
    (hreq : carriesStatus request = true) (h : ∀ a ∈ store, consistent a) :
    ∀ a ∈ serve store request, consistent a := by
  cases request with
  | create role userId body env =>
    rcases create_store store role userId body env with h1 | ⟨_, h1⟩
    · simp only [serve]; rw [h1]; exact h
    · simp only [serve]
      rw [h1]
      intro a ha
      rcases List.mem_append.mp ha with ha | ha
      · exact h a ha
      · rw [List.mem_singleton] at ha
        subst ha
        exact ⟨"Applied", by decide, rfl, rfl⟩
  | manual role id body env =>
    simp only [serve]
    unfold updateStatusManual
    split
    · cases hfind : findById store id with
      | none => exact h
      | some app =>
        simp only
        split
        · exact h
        · cases hs : save env.writeOk (applyUpdate app "Manual Status Update"
              "Status manually changed from " Role.admin body env.now) with
          | none => exact h
          | some saved =>
            intro a ha
            rcases mem_updateOne ha with ha | ha
            · exact h a ha
            · subst ha
              exact consistent_applyUpdate app _ _ _ body env a hreq hs
    · exact h
  | generic role id body env =>
    simp only [serve]
    unfold updateStatus
    split
    · cases hfind : findById store id with
      | none => exact h
      | some app =>
        simp only
        cases hs : save env.writeOk (applyUpdate app "Status Updated"
            "Status changed from " role body env.now) with
        | none => exact h
        | some saved =>
          intro a ha
          rcases mem_updateOne ha with ha | ha
          · exact h a ha
          · subst ha
            exact consistent_applyUpdate app _ _ _ body env a hreq hs
    · exact h
  | trigger role names env =>
    simp only [serve]
    intro b hb
    obtain ⟨a, ha, hab⟩ := forall₂_mem_right (botTrigger_forall₂ store role names env) b hb
    rcases hab with h1 | h1
    · rw [h1]
      exact h a ha
    · rw [h1]
      exact consistent_processOne names (env a._id) a (h a ha)

/-- When every status update of the sequence carries a status, every stored
document has one of the five statuses and its last log entry with a newStatus
agrees with it. -/
theorem consistent_run (requests : List Request) :
    ∀ store : List Application, (∀ r ∈ requests, carriesStatus r = true) →
      (∀ a ∈ store, consistent a) → ∀ a ∈ run store requests, consistent a := by
  induction requests with
  | nil => intro store _ h; exact h
  | cons r rest ih =>
    intro store hreq h
    exact ih (serve store r) (fun q hq => hreq q (List.mem_cons_of_mem _ hq))
      (consistent_serve store r (hreq r (List.mem_cons_self _ _)) h)

theorem updateStatusManual_of_technical (store : List Application) (id : Nat)
    (a : Application) (body : UpdateBody) (env : Env) (hfind : findById store id = some a)
    (htech : a.isTechnical = true) :
    updateStatusManual store Role.admin id body env
      = (⟨400, "Cannot manually update technical applications", none⟩, store) := by
  simp [updateStatusManual, roleMiddleware, hfind, htech]

/-! ## Creation -/

/-- C6 (creation postcondition).  When the applicant has no application for
the job role of the request, the experience of the request is a number that is
not negative and the database accepts the write, `createApplication` answers
201 and appends one document: its status is `Applied`, it has no comment and
exactly one log entry, whose action is "Application Created", whose newStatus
is `Applied` and whose byRole is applicant.  The body is arbitrary otherwise,
so the `status`, `isTechnical`, `skills` and `additionalNotes` it carries do
not matter. -/
theorem createApplication_postcondition (store : List Application) (A : Nat)
    (body : CreateBody) (env : Env) (e : Int)
    (hfree : findOne store A body.jobRole = none)
    (he : body.experience = some e) (h0 : 0 ≤ e) (hw : env.writeOk = true) :
    ∃ app entry,
      createApplication store Role.applicant A body env
        = (⟨201, "Application created successfully", some app⟩, store ++ [app]) ∧
      app.applicantId = A ∧ app.jobRole = body.jobRole ∧
      app.status = some "Applied" ∧ app.comments = [] ∧ app.logs = [entry] ∧
      entry.action = "Application Created" ∧ entry.oldStatus = none ∧
      entry.newStatus = some "Applied" ∧ entry.byRole = Role.applicant := by
  have hv := validate_newApplication (nextId store) A body env.now e he h0
  refine ⟨preSave (newApplication (nextId store) A body env.now), _, ?_, rfl, rfl, rfl, rfl, rfl,
    rfl, rfl, rfl, rfl⟩
  simp [createApplication, roleMiddleware, hfree, save, hv, hw]

/-- Scenario 1 of the spec, with a body that asks for status `Offer`. -/
theorem createApplication_postcondition_witness :
    findOne [] 1 sampleCreate.jobRole = none ∧ sampleCreate.experience = some 3 ∧
    sampleEnv.writeOk = true ∧
    ∃ app entry,
      createApplication [] Role.applicant 1 sampleCreate sampleEnv
        = (⟨201, "Application created successfully", some app⟩, [] ++ [app]) ∧
      app.applicantId = 1 ∧ app.jobRole = sampleCreate.jobRole ∧
      app.status = some "Applied" ∧ app.comments = [] ∧ app.logs = [entry] ∧
      entry.action = "Application Created" ∧ entry.oldStatus = none ∧
      entry.newStatus = some "Applied" ∧ entry.byRole = Role.applicant :=
  ⟨rfl, rfl, rfl,
    createApplication_postcondition [] 1 sampleCreate sampleEnv 3 rfl rfl (by decide) rfl⟩

/-- C7 (duplicate rejection).  When the collection holds an application of
the applicant for the job role of the request, `createApplication` answers 400
"You have already applied for this job position" and the collection is the
same list of documents as before. -/
theorem createApplication_duplicate (store : List Application) (a : Application)
    (body : CreateBody) (env : Env) (hmem : a ∈ store) (hjob : a.jobRole = body.jobRole) :
    createApplication store Role.applicant a.applicantId body env
      = (⟨400, "You have already applied for this job position", none⟩, store) := by
  have hsome : ∃ d, findOne store a.applicantId body.jobRole = some d := by
    unfold findOne
    cases hf : store.find?
        (fun b => b.applicantId == a.applicantId && b.jobRole == body.jobRole) with
    | some d => exact ⟨hydrate d, rfl⟩
    | none =>
      rw [List.find?_eq_none] at hf
      have := hf a hmem
      simp [hjob] at this
  obtain ⟨d, hd⟩ := hsome
  simp [createApplication, roleMiddleware, hd]

/-- Scenario 2 of the spec: the second application for the same pair. -/
theorem createApplication_duplicate_witness :
    technicalApplication ∈ technicalStore ∧
    technicalApplication.jobRole = (⟨8, none, some 5, none, none, none⟩ : CreateBody).jobRole ∧
    createApplication technicalStore Role.applicant technicalApplication.applicantId
        ⟨8, none, some 5, none, none, none⟩ sampleEnv
      = (⟨400, "You have already applied for this job position", none⟩, technicalStore) :=
  ⟨by decide, rfl,
    createApplication_duplicate technicalStore technicalApplication
      ⟨8, none, some 5, none, none, none⟩ sampleEnv (by decide) rfl⟩

/-- C4 (uniqueness invariant).  After any finite sequence of requests served
one after another on the empty collection (creations, manual and generic
status updates and bot passes, by any role and with any body), at most one
application has a given applicantId and jobRole. -/
theorem unique_application_per_pair (requests : List Request) (A J : Nat) :
    ((run [] requests).filter (fun a => a.applicantId == A && a.jobRole == J)).length ≤ 1 :=
  filter_key_length A J _ (keys_run requests [] List.nodup_nil)

/-! ## Status updates -/

/-- C8 (technical gate).  On an application with `isTechnical = true` the
manual status update of an admin answers 400 "Cannot manually update technical
applications", whatever status and comment the body carries, and the
collection is the same list of documents as before. -/
theorem technical_gate (store : List Application) (id : Nat) (a : Application)
    (body : UpdateBody) (env : Env) (hfind : findById store id = some a)
    (htech : a.isTechnical = true) :
    updateStatusManual store Role.admin id body env
      = (⟨400, "Cannot manually update technical applications", none⟩, store) :=
  updateStatusManual_of_technical store id a body env hfind htech

/-- Scenario 3 of the spec: an admin asks for `Offer` on a technical
application. -/
theorem technical_gate_witness :
    findById technicalStore 1 = some technicalApplication ∧
    technicalApplication.isTechnical = true ∧
    updateStatusManual technicalStore Role.admin 1 ⟨some "Offer", some "fast track"⟩ sampleEnv
      = (⟨400, "Cannot manually update technical applications", none⟩, technicalStore) :=
  ⟨by decide, rfl,
    technical_gate technicalStore 1 technicalApplication ⟨some "Offer", some "fast track"⟩
      sampleEnv (by decide) rfl⟩

/-- C9, as amended.  For an existing application and a requested status that
is a string outside the five values of the enum, the update fails and nothing
is written: the generic update of an admin or of the bot, and the manual
update of an admin, are not answered 200, return no application, and leave
the collection the same list of documents as before.  On a technical
application the manual update is answered by the technical gate, with 400
"Cannot manually update technical applications". -/
theorem unknown_status_rejected (store : List Application) (id : Nat) (a : Application)
    (body : UpdateBody) (env : Env) (s : String) (hfind : findById store id = some a)
    (hs : body.status = some s) (hn : s ∉ statusEnum) :
    ((updateStatus store Role.admin id body env).1.code ≠ 200 ∧
      (updateStatus store Role.admin id body env).1.application = none ∧
      (updateStatus store Role.admin id body env).2 = store) ∧
    ((updateStatus store Role.bot id body env).1.code ≠ 200 ∧
      (updateStatus store Role.bot id body env).1.application = none ∧
      (updateStatus store Role.bot id body env).2 = store) ∧
    ((updateStatusManual store Role.admin id body env).1.code ≠ 200 ∧
      (updateStatusManual store Role.admin id body env).1.application = none ∧
      (updateStatusManual store Role.admin id body env).2 = store) ∧
    (a.isTechnical = true →
      (updateStatusManual store Role.admin id body env).1
        = ⟨400, "Cannot manually update technical applications", none⟩) := by
  have h1 : updateStatus store Role.admin id body env = (serverError, store) := by
    have hv := validate_applyUpdate_of_unknown a "Status Updated" "Status changed from "
      Role.admin body env.now s hs hn
    simp [updateStatus, roleMiddleware, hfind, save_of_invalid hv]
  have h2 : updateStatus store Role.bot id body env = (serverError, store) := by
    have hv := validate_applyUpdate_of_unknown a "Status Updated" "Status changed from "
      Role.bot body env.now s hs hn
    simp [updateStatus, roleMiddleware, hfind, save_of_invalid hv]
  have h3 : a.isTechnical = true → updateStatusManual store Role.admin id body env
      = (⟨400, "Cannot manually update technical applications", none⟩, store) :=
    fun htech => updateStatusManual_of_technical store id a body env hfind htech
  have h4 : a.isTechnical = false → updateStatusManual store Role.admin id body env
      = (serverError, store) := by
    intro htech
    have hv := validate_applyUpdate_of_unknown a "Manual Status Update"
      "Status manually changed from " Role.admin body env.now s hs hn
    simp [updateStatusManual, roleMiddleware, hfind, htech, save_of_invalid hv]
  refine ⟨?_, ?_, ?_, ?_⟩
  · rw [h1]
    exact ⟨by simp [serverError], rfl, rfl⟩
  · rw [h2]
    exact ⟨by simp [serverError], rfl, rfl⟩
  · cases htech : a.isTechnical with
    | true =>
      rw [h3 htech]
      exact ⟨by simp [serverError], rfl, rfl⟩
    | false =>
      rw [h4 htech]
      exact ⟨by simp [serverError], rfl, rfl⟩
  · intro htech
    rw [h3 htech]

/-- The status "Hired" on the non-technical application of scenario 1, and on
the technical application 1. -/
theorem unknown_status_rejected_witness :
    findById sampleStore 1
      = some (hydrate (preSave (newApplication 1 1 sampleCreate sampleEnv.now))) ∧
    findById technicalStore 1 = some technicalApplication ∧
    technicalApplication.isTechnical = true ∧ "Hired" ∉ statusEnum ∧
    ((updateStatus sampleStore Role.admin 1 ⟨some "Hired", none⟩ sampleEnv).1.code ≠ 200 ∧
      (updateStatus sampleStore Role.admin 1 ⟨some "Hired", none⟩ sampleEnv).1.application
        = none ∧
      (updateStatus sampleStore Role.admin 1 ⟨some "Hired", none⟩ sampleEnv).2
        = sampleStore) ∧
    ((updateStatus sampleStore Role.bot 1 ⟨some "Hired", none⟩ sampleEnv).1.code ≠ 200 ∧
      (updateStatus sampleStore Role.bot 1 ⟨some "Hired", none⟩ sampleEnv).1.application
        = none ∧
      (updateStatus sampleStore Role.bot 1 ⟨some "Hired", none⟩ sampleEnv).2
        = sampleStore) ∧
    ((updateStatusManual sampleStore Role.admin 1 ⟨some "Hired", none⟩ sampleEnv).1.code
        ≠ 200 ∧
      (updateStatusManual sampleStore Role.admin 1 ⟨some "Hired", none⟩
        sampleEnv).1.application = none ∧
      (updateStatusManual sampleStore Role.admin 1 ⟨some "Hired", none⟩ sampleEnv).2
        = sampleStore) ∧
    (updateStatusManual technicalStore Role.admin 1 ⟨some "Hired", none⟩ sampleEnv).1
      = ⟨400, "Cannot manually update technical applications", none⟩ :=
  ⟨by decide, by decide, rfl, by decide,
    (unknown_status_rejected sampleStore 1
      (hydrate (preSave (newApplication 1 1 sampleCreate sampleEnv.now)))
      ⟨some "Hired", none⟩ sampleEnv "Hired" (by decide) rfl (by decide)).1,
    (unknown_status_rejected sampleStore 1
      (hydrate (preSave (newApplication 1 1 sampleCreate sampleEnv.now)))
      ⟨some "Hired", none⟩ sampleEnv "Hired" (by decide) rfl (by decide)).2.1,
    (unknown_status_rejected sampleStore 1
      (hydrate (preSave (newApplication 1 1 sampleCreate sampleEnv.now)))
      ⟨some "Hired", none⟩ sampleEnv "Hired" (by decide) rfl (by decide)).2.2.1,
    (unknown_status_rejected technicalStore 1 technicalApplication
      ⟨some "Hired", none⟩ sampleEnv "Hired" (by decide) rfl (by decide)).2.2.2 rfl⟩

/-- C9, counterexample.  The admin asks for the unknown status "Hired" on a
technical application: the manual update is answered by the technical gate,
with the invalid-operation reply of a technical application, whatever the
requested status is; the same body with the valid status `Reviewed` gets the
same reply. -/
theorem manual_unknown_status_on_technical :
    findById technicalStore 1 = some technicalApplication ∧
    technicalApplication.isTechnical = true ∧ "Hired" ∉ statusEnum ∧
    (updateStatusManual technicalStore Role.admin 1 ⟨some "Hired", none⟩ sampleEnv).1
      = ⟨400, "Cannot manually update technical applications", none⟩ ∧
    (updateStatusManual technicalStore Role.admin 1 ⟨some "Reviewed", none⟩ sampleEnv).1
      = ⟨400, "Cannot manually update technical applications", none⟩ := by
  decide

/-! ## The bot pass -/

/-- C2 (bot transition legality).  For every collection, role, applicant names
and environment (the draws of `Math.random()` included), every entry of the
results of one bot pass has its pair of oldStatus and newStatus among
(Applied, Reviewed), (Reviewed, Interview), (Interview, Offer) and
(Interview, Rejected); and every document of the collection either keeps its
logs or gains exactly one entry, with action "Bot Automation", byRole bot and
such a pair. -/
theorem bot_transition_legal (store : List Application) (role : Role)
    (names : Nat → Option String) (env : Nat → Env) :
    (∀ r ∈ (botTrigger store role names env).1.results,
      legalBotMove r.oldStatus (some r.newStatus)) ∧
    List.Forall₂
      (fun before after => after.logs = before.logs ∨
        ∃ e, after.logs = before.logs ++ [e] ∧ e.action = "Bot Automation" ∧
          e.byRole = Role.bot ∧ legalBotMove e.oldStatus e.newStatus)
      store (botTrigger store role names env).2 := by
  constructor
  · intro r hr
    obtain ⟨a, _, ha⟩ := botTrigger_results store role names env r hr
    exact (processOne_result ha).2.2
  · refine (botTrigger_forall₂ store role names env).imp ?_
    intro a b hab
    rcases hab with h | h
    · exact Or.inl (by rw [h])
    · rw [h]
      exact processOne_logs names (env a._id) a

/-- C3 (terminal absorption).  In a collection whose `_id`s are distinct, an
application whose status is `Offer` or `Rejected` is stored unchanged after a
bot pass (the whole document, so its status, logs and comments), and no entry
of the results of the pass carries its `_id`. -/
theorem terminal_absorption (store : List Application) (role : Role)
    (names : Nat → Option String) (env : Nat → Env) (a : Application)
    (hnd : (store.map (fun b => b._id)).Nodup)
    (hmem : a ∈ store) (ht : a.status = some "Offer" ∨ a.status = some "Rejected") :
    (botTrigger store role names env).2.find? (fun b => b._id == a._id) = some a ∧
    ∀ r ∈ (botTrigger store role names env).1.results, r.applicationId ≠ a._id :=
  untouched_of_processOne store role names env a hnd hmem
    (processOne_terminal names (env a._id) a ht)

/-- A pass of the bot over an application at `Applied` and one at `Offer`. -/
theorem terminal_absorption_witness :
    (technicalStore.map (fun b => b._id)).Nodup ∧ offeredApplication ∈ technicalStore ∧
    offeredApplication.status = some "Offer" ∧
    (botTrigger technicalStore Role.bot sampleNames (fun _ => sampleEnv)).2.find?
      (fun b => b._id == offeredApplication._id) = some offeredApplication ∧
    ∀ r ∈ (botTrigger technicalStore Role.bot sampleNames (fun _ => sampleEnv)).1.results,
      r.applicationId ≠ offeredApplication._id :=
  ⟨by decide, by decide, rfl,
    terminal_absorption technicalStore Role.bot sampleNames (fun _ => sampleEnv)
      offeredApplication (by decide) (by decide) (Or.inl rfl)⟩

/-! ## History -/

/-- C5 (append-only history).  For every request (a creation, a manual or a
generic status update, a bot pass) and every document of the collection, the
document at the same place afterwards has the same `_id`, and the comments and
the logs before are each a prefix of the comments and the logs after. -/
theorem append_only_history (store : List Application) (request : Request) (i : Nat)
    (a : Application) (h : store[i]? = some a) :
    ∃ b, (serve store request)[i]? = some b ∧ b._id = a._id ∧
      a.comments <+: b.comments ∧ a.logs <+: b.logs := by
  have key : ∃ b, (serve store request)[i]? = some b ∧ grows a b := by
    cases request with
    | create role userId body env =>
      rcases create_store store role userId body env with h1 | ⟨_, h1⟩
      · exact ⟨a, by simp only [serve]; rw [h1]; exact h, grows_refl a⟩
      · refine ⟨a, ?_, grows_refl a⟩
        simp only [serve]
        rw [h1, List.getElem?_append_left (List.getElem?_eq_some.mp h).1]
        exact h
    | manual role id body env =>
      rcases manual_store store role id body env with h1 | ⟨s, hs, h1, hid⟩
      · exact ⟨a, by simp only [serve]; rw [h1]; exact h, grows_refl a⟩
      · simp only [serve]
        rw [h1]
        refine grows_updateOne store id _ hid ?_ i a h
        intro s2 hs2
        rw [hs] at hs2
        cases hs2
        exact grows_applyUpdate s _ _ _ body env.now
    | generic role id body env =>
      rcases generic_store store role id body env with h1 | ⟨s, hs, h1, hid⟩
      · exact ⟨a, by simp only [serve]; rw [h1]; exact h, grows_refl a⟩
      · simp only [serve]
        rw [h1]
        refine grows_updateOne store id _ hid ?_ i a h
        intro s2 hs2
        rw [hs] at hs2
        cases hs2
        exact grows_applyUpdate s _ _ _ body env.now
    | trigger role names env =>
      simp only [serve]
      obtain ⟨b, hb, hab⟩ := forall₂_getElem? (botTrigger_forall₂ store role names env) i a h
      rcases hab with h1 | h1
      · exact ⟨b, hb, by rw [h1]; exact grows_refl a⟩
      · exact ⟨b, hb, by rw [h1]; exact grows_processOne names (env a._id) a⟩
  obtain ⟨b, hb, hg⟩ := key
  exact ⟨b, hb, hg.1, hg.2.1, hg.2.2⟩

/-- A bot pass over the two technical applications, seen at the first one. -/
theorem append_only_history_witness :
    technicalStore[0]? = some technicalApplication ∧
    ∃ b, (serve technicalStore
        (Request.trigger Role.bot sampleNames (fun _ => sampleEnv)))[0]? = some b ∧
      b._id = technicalApplication._id ∧
      technicalApplication.comments <+: b.comments ∧ technicalApplication.logs <+: b.logs :=
  ⟨rfl, append_only_history technicalStore
    (Request.trigger Role.bot sampleNames (fun _ => sampleEnv)) 0 technicalApplication rfl⟩

/-! ## A request without a status -/

/-- C1, evaluated.  Applicant 1 applies, an admin sets `Reviewed` through the
generic route, then the admin sends a generic update whose body has a comment
and no status: the update is answered 200, the stored document has no status
(a query reads it back as `Applied`, the schema default), and the last log
entry with a newStatus says `Reviewed`.  The manual route of the admin does
the same. -/
theorem status_log_mismatch :
    (updateStatus
      (run [] [Request.create Role.applicant 1 sampleCreate sampleEnv,
        Request.generic Role.admin 1 ⟨some "Reviewed", none⟩ sampleEnv])
      Role.admin 1 ⟨none, some "called the applicant"⟩ sampleEnv).1.code = 200 ∧
    (run [] [Request.create Role.applicant 1 sampleCreate sampleEnv,
        Request.generic Role.admin 1 ⟨some "Reviewed", none⟩ sampleEnv,
        Request.generic Role.admin 1 ⟨none, some "called the applicant"⟩ sampleEnv]).map
      (fun a => (a.status, (hydrate a).status, lastLoggedStatus a.logs))
      = [(none, some "Applied", some "Reviewed")] ∧
    (run [] [Request.create Role.applicant 1 sampleCreate sampleEnv,
        Request.manual Role.admin 1 ⟨some "Reviewed", none⟩ sampleEnv,
        Request.manual Role.admin 1 ⟨none, some "called the applicant"⟩ sampleEnv]).map
      (fun a => (a.status, (hydrate a).status, lastLoggedStatus a.logs))
      = [(none, some "Applied", some "Reviewed")] := by
  decide

/-- C10, evaluated.  Applicant 1 applies, then the generic update is sent by
the bot role with a body that has no status field: the update is answered 200,
the application of the reply and the stored document have no status, which is
none of the five values. -/
theorem status_erased :
    (updateStatus sampleStore Role.bot 1 ⟨none, none⟩ sampleEnv).1.code = 200 ∧
    (updateStatus sampleStore Role.bot 1 ⟨none, none⟩ sampleEnv).1.application.map
      (fun a => a.status) = some none ∧
    (run [] [Request.create Role.applicant 1 sampleCreate sampleEnv,
        Request.generic Role.bot 1 ⟨none, none⟩ sampleEnv]).map (fun a => a.status)
      = [none] ∧
    (none : Option String) ∉ statusEnum.map some := by
  decide

/-! ## More lemmas on the updates -/

theorem findById_eq_none {store : List Application} {id : Nat}
    (h : ∀ a ∈ store, a._id ≠ id) : findById store id = none := by
  unfold findById
  rw [Option.map_eq_none', List.find?_eq_none]
  intro a ha
  simpa using h a ha

theorem find?_updateOne (store : List Application) (doc s : Application)
    (hfind : store.find? (fun b => b._id == doc._id) = some s) :
    (updateOne store doc).find? (fun b => b._id == doc._id) = some doc := by
  induction store with
  | nil => simp at hfind
  | cons x rest ih =>
    by_cases hx : (x._id == doc._id) = true
    · simp [updateOne, hx, List.find?]
    · have hrest : rest.find? (fun b => b._id == doc._id) = some s := by
        simpa [List.find?, hx] using hfind
      simp [updateOne, hx, List.find?, ih hrest]

theorem truthy_jsStr {c : Option String} (h : truthy c = true) : jsStr c ≠ "" := by
  cases c with
  | none => simp [truthy] at h
  | some t => simpa [truthy, jsStr] using h

theorem validate_applyUpdate (a : Application) (action word : String) (r : Role)
    (body : UpdateBody) (now : Nat) (t : String) (hv : validate a = true)
    (hs : body.status = some t) (ht : t ∈ statusEnum) (ha : action ≠ "") :
    validate (applyUpdate a action word r body now) = true := by
  unfold validate at hv ⊢
  simp only [Bool.and_eq_true] at hv
  obtain ⟨⟨⟨h1, _⟩, h3⟩, h4⟩ := hv
  rw [applyUpdate_status, applyUpdate_logs, applyUpdate_comments,
    (applyUpdate_frame a action word r body now).2.2.2.2, hs]
  simp only [Bool.and_eq_true]
  refine ⟨⟨⟨h1, by simpa using ht⟩, ?_⟩, ?_⟩
  · by_cases hc : truthy body.comment = true
    · simp only [hc, if_true, List.all_append, Bool.and_eq_true, h3, true_and]
      simpa [validComment] using truthy_jsStr hc
    · simp only [hc]
      exact h3
  · simp only [List.all_append, Bool.and_eq_true, h4, true_and]
    simpa [validLog] using ha

/-- A successful manual update: the saved document and where it is stored. -/
theorem manual_success (store : List Application) (role : Role) (id : Nat)
    (body : UpdateBody) (env : Env) (app : Application)
    (hfind : findById store id = some app)
    (hok : (updateStatusManual store role id body env).1.code = 200) :
    role = Role.admin ∧
    updateStatusManual store role id body env =
      (⟨200, "Application status updated successfully",
          some (preSave (applyUpdate app "Manual Status Update"
            "Status manually changed from " Role.admin body env.now))⟩,
        updateOne store (preSave (applyUpdate app "Manual Status Update"
            "Status manually changed from " Role.admin body env.now))) := by
  unfold updateStatusManual at hok ⊢
  by_cases hg : roleMiddleware [Role.admin] role = true
  · have hrole : role = Role.admin := by
      cases role <;> simp [roleMiddleware] at hg ⊢
    simp only [hg, if_true, hfind] at hok ⊢
    by_cases htech : app.isTechnical = true
    · simp [htech] at hok
    · simp only [htech] at hok ⊢
      cases hs : save env.writeOk (applyUpdate app "Manual Status Update"
          "Status manually changed from " Role.admin body env.now) with
      | none => simp [hs, serverError] at hok
      | some saved =>
        have := (save_eq_some hs).1
        subst this
        exact ⟨hrole, by simp⟩
  · simp [hg, forbidden] at hok

/-- A successful generic update: the saved document and where it is stored. -/
theorem generic_success (store : List Application) (role : Role) (id : Nat)
    (body : UpdateBody) (env : Env) (app : Application)
    (hfind : findById store id = some app)
    (hok : (updateStatus store role id body env).1.code = 200) :
    updateStatus store role id body env =
      (⟨200, "Application updated successfully",
          some (preSave (applyUpdate app "Status Updated"
            "Status changed from " role body env.now))⟩,
        updateOne store (preSave (applyUpdate app "Status Updated"
            "Status changed from " role body env.now))) := by
  unfold updateStatus at hok ⊢
  by_cases hg : roleMiddleware [Role.admin, Role.bot] role = true
  · simp only [hg, if_true, hfind] at hok ⊢
    cases hs : save env.writeOk (applyUpdate app "Status Updated"
        "Status changed from " role body env.now) with
    | none => simp [hs, serverError] at hok
    | some saved =>
      have := (save_eq_some hs).1
      subst this
      simp
  · simp [hg, forbidden] at hok

theorem find?_updateOne_of_findById {store : List Application} {id : Nat} {app : Application}
    (hfind : findById store id = some app) (doc : Application) (hid : doc._id = app._id) :
    (updateOne store doc).find? (fun b => b._id == id) = some doc := by
  obtain ⟨s, hs1, hs2, hs3⟩ := findById_eq_some hfind
  have hdoc : doc._id = id := by
    rw [hid, hs2]
    exact hs3
  rw [← hdoc] at hs1 ⊢
  exact find?_updateOne store doc s hs1

/-! ## Status updates: not found, log entry, comment -/

/-- C11 (not found).  When no stored application has the requested id, the
manual update of an admin and the generic update of an admin or of the bot
each answer 404 "Application not found" and the collection is the same list
of documents as before. -/
theorem update_not_found (store : List Application) (id : Nat) (body : UpdateBody)
    (env : Env) (h : ∀ a ∈ store, a._id ≠ id) :
    updateStatusManual store Role.admin id body env
      = (⟨404, "Application not found", none⟩, store) ∧
    updateStatus store Role.admin id body env
      = (⟨404, "Application not found", none⟩, store) ∧
    updateStatus store Role.bot id body env
      = (⟨404, "Application not found", none⟩, store) := by
  have hnone := findById_eq_none h
  refine ⟨?_, ?_, ?_⟩
  · simp [updateStatusManual, roleMiddleware, hnone]
  · simp [updateStatus, roleMiddleware, hnone]
  · simp [updateStatus, roleMiddleware, hnone]

/-- An update of application 9 on the collection of scenario 1. -/
theorem update_not_found_witness :
    (∀ a ∈ sampleStore, a._id ≠ 9) ∧
    updateStatusManual sampleStore Role.admin 9 ⟨some "Offer", none⟩ sampleEnv
      = (⟨404, "Application not found", none⟩, sampleStore) ∧
    updateStatus sampleStore Role.admin 9 ⟨some "Offer", none⟩ sampleEnv
      = (⟨404, "Application not found", none⟩, sampleStore) ∧
    updateStatus sampleStore Role.bot 9 ⟨some "Offer", none⟩ sampleEnv
      = (⟨404, "Application not found", none⟩, sampleStore) :=
  ⟨by decide, update_not_found sampleStore 9 ⟨some "Offer", none⟩ sampleEnv (by decide)⟩

/-- C12 (log entry of a successful status update).  Let `app` be the
application the handler reads for the id, `t` the requested status, and let
the manual or the generic update be answered 200.  Then the document stored
under the id afterwards has status `t`, and its logs are the logs of `app`
followed by exactly one entry, whose oldStatus is the status of `app`, whose
newStatus is `t` and whose byRole is the acting role (on the manual route the
gate only lets admin through, and the entry says admin). -/
theorem status_update_log (store : List Application) (role : Role) (id : Nat)
    (body : UpdateBody) (env : Env) (app : Application) (t : String)
    (out : Reply × List Application)
    (hfind : findById store id = some app) (hs : body.status = some t)
    (hroute : out = updateStatusManual store role id body env ∨
      out = updateStatus store role id body env)
    (hok : out.1.code = 200) :
    ∃ saved entry,
      out.1.application = some saved ∧
      out.2.find? (fun b => b._id == id) = some saved ∧
      saved.status = some t ∧
      saved.logs = app.logs ++ [entry] ∧
      entry.oldStatus = app.status ∧ entry.newStatus = some t ∧ entry.byRole = role := by
  rcases hroute with hout | hout
  · subst hout
    obtain ⟨hrole, heq⟩ := manual_success store role id body env app hfind hok
    rw [heq]
    have hst := applyUpdate_status app "Manual Status Update"
      "Status manually changed from " Role.admin body env.now
    rw [hs] at hst
    exact ⟨_, _, rfl, find?_updateOne_of_findById hfind _
      (applyUpdate_frame app _ _ _ body env.now).1, hst,
      applyUpdate_logs app _ _ _ body env.now, rfl, hs, hrole.symm⟩
  · subst hout
    have heq := generic_success store role id body env app hfind hok
    rw [heq]
    have hst := applyUpdate_status app "Status Updated" "Status changed from " role body env.now
    rw [hs] at hst
    exact ⟨_, _, rfl, find?_updateOne_of_findById hfind _
      (applyUpdate_frame app _ _ _ body env.now).1, hst,
      applyUpdate_logs app _ _ _ body env.now, rfl, hs, rfl⟩

/-- The bot role moves the technical application 1 from `Applied` to
`Interview` through the generic route. -/
theorem status_update_log_witness :
    findById technicalStore 1 = some technicalApplication ∧
    (updateStatus technicalStore Role.bot 1 ⟨some "Interview", none⟩ sampleEnv).1.code = 200 ∧
    ∃ saved entry,
      (updateStatus technicalStore Role.bot 1 ⟨some "Interview", none⟩
        sampleEnv).1.application = some saved ∧
      (updateStatus technicalStore Role.bot 1 ⟨some "Interview", none⟩ sampleEnv).2.find?
        (fun b => b._id == 1) = some saved ∧
      saved.status = some "Interview" ∧
      saved.logs = technicalApplication.logs ++ [entry] ∧
      entry.oldStatus = technicalApplication.status ∧ entry.newStatus = some "Interview" ∧
      entry.byRole = Role.bot :=
  ⟨by decide, by decide,
    status_update_log technicalStore Role.bot 1 ⟨some "Interview", none⟩ sampleEnv
      technicalApplication "Interview" _ (by decide) rfl (Or.inr rfl) (by decide)⟩

/-- C13 (comment iff supplied).  Let `app` be the application the handler
reads for the id and let the manual or the generic update be answered 200.
When the body carries a comment text that is not empty, the comments of the
document stored afterwards are the comments of `app` followed by exactly one
entry, with that text and the acting role as authorRole; when the body carries
no comment, or the empty text, the comments are those of `app`. -/
theorem comment_iff_supplied (store : List Application) (role : Role) (id : Nat)
    (body : UpdateBody) (env : Env) (app : Application)
    (out : Reply × List Application)
    (hfind : findById store id = some app)
    (hroute : out = updateStatusManual store role id body env ∨
      out = updateStatus store role id body env)
    (hok : out.1.code = 200) :
    ∃ saved,
      out.2.find? (fun b => b._id == id) = some saved ∧
      (∀ text, body.comment = some text → text ≠ "" →
        saved.comments = app.comments ++ [⟨text, role, env.now⟩]) ∧
      (body.comment = none ∨ body.comment = some "" → saved.comments = app.comments) := by
  have key : ∀ (action word : String),
      (∀ text, body.comment = some text → text ≠ "" →
        (applyUpdate app action word role body env.now).comments
          = app.comments ++ [⟨text, role, env.now⟩]) ∧
      (body.comment = none ∨ body.comment = some "" →
        (applyUpdate app action word role body env.now).comments = app.comments) := by
    intro action word
    constructor
    · intro text hc hne
      rw [applyUpdate_comments]
      simp [hc, truthy, jsStr, hne]
    · intro hc
      rw [applyUpdate_comments]
      rcases hc with hc | hc <;> simp [hc, truthy]
  rcases hroute with hout | hout
  · subst hout
    obtain ⟨hrole, heq⟩ := manual_success store role id body env app hfind hok
    subst hrole
    rw [heq]
    exact ⟨_, find?_updateOne_of_findById hfind _
      (applyUpdate_frame app _ _ _ body env.now).1, key _ _⟩
  · subst hout
    have heq := generic_success store role id body env app hfind hok
    rw [heq]
    exact ⟨_, find?_updateOne_of_findById hfind _
      (applyUpdate_frame app _ _ _ body env.now).1, key _ _⟩

/-- An admin sets `Reviewed` on the application of scenario 1 and leaves a
comment. -/
theorem comment_iff_supplied_witness :
    findById sampleStore 1 = some (hydrate (preSave (newApplication 1 1 sampleCreate 1700000000))) ∧
    (updateStatusManual sampleStore Role.admin 1 ⟨some "Reviewed", some "strong profile"⟩
      sampleEnv).1.code = 200 ∧
    ∃ saved,
      (updateStatusManual sampleStore Role.admin 1 ⟨some "Reviewed", some "strong profile"⟩
        sampleEnv).2.find? (fun b => b._id == 1) = some saved ∧
      (∀ text, (⟨some "Reviewed", some "strong profile"⟩ : UpdateBody).comment = some text →
        text ≠ "" →
        saved.comments = (hydrate (preSave (newApplication 1 1 sampleCreate 1700000000))).comments
          ++ [⟨text, Role.admin, sampleEnv.now⟩]) ∧
      ((⟨some "Reviewed", some "strong profile"⟩ : UpdateBody).comment = none ∨
        (⟨some "Reviewed", some "strong profile"⟩ : UpdateBody).comment = some "" →
        saved.comments
          = (hydrate (preSave (newApplication 1 1 sampleCreate 1700000000))).comments) :=
  ⟨by decide, by decide,
    comment_iff_supplied sampleStore Role.admin 1 ⟨some "Reviewed", some "strong profile"⟩
      sampleEnv _ _ (by decide) (Or.inl rfl) (by decide)⟩

/-! ## More lemmas on the bot pass -/

theorem validate_experience {a : Application} (hv : validate a = true) :
    ∃ e, a.experience = some e := by
  unfold validate at hv
  cases he : a.experience with
  | none => simp [he] at hv
  | some e => exact ⟨e, rfl⟩

theorem processOne_of_missing (names : Nat → Option String) (env : Env) (a : Application)
    (h : a.experience = none) : processOne names env a = (a, Iteration.skipped) := by
  unfold processOne
  by_cases hc : isCandidate a = true
  · have : (hydrate a).experience = none := h
    simp [hc, this]
  · simp [hc]

theorem processOne_of_save_none (names : Nat → Option String) (env : Env) (a : Application)
    (ns c : String) (hf : automationFlow (hydrate a).status env.random = some (ns, c))
    (hs : save env.writeOk (advance (hydrate a) ns c env.now) = none) :
    processOne names env a = (a, Iteration.skipped) := by
  unfold processOne
  by_cases hc : isCandidate a = true
  · simp only [hc, if_true]
    cases he : (hydrate a).experience with
    | none => rfl
    | some e => simp [hf, hs]
  · simp [hc]

/-- A candidate whose save succeeds and whose applicant is found. -/
theorem processOne_of_save_some (names : Nat → Option String) (env : Env)
    (a saved : Application) (ns c name : String) (hc : isCandidate a = true)
    (hf : automationFlow (hydrate a).status env.random = some (ns, c))
    (hs : save env.writeOk (advance (hydrate a) ns c env.now) = some saved)
    (hn : names a.applicantId = some name) :
    processOne names env a =
      (saved, Iteration.pushed ⟨a._id, name, a.jobRole, (hydrate a).status, ns, c⟩) := by
  obtain ⟨e, he⟩ := validate_experience (save_eq_some hs).2.1
  have he2 : (hydrate a).experience = some e := he
  have hid : (hydrate a).applicantId = a.applicantId := rfl
  unfold processOne
  simp only [hc, if_true, he2, hf, hs, hid, hn]
  rfl

/-- A candidate whose save succeeds and whose applicant is not found. -/
theorem processOne_of_save_orphan (names : Nat → Option String) (env : Env)
    (a saved : Application) (ns c : String) (hc : isCandidate a = true)
    (hf : automationFlow (hydrate a).status env.random = some (ns, c))
    (hs : save env.writeOk (advance (hydrate a) ns c env.now) = some saved)
    (hn : names a.applicantId = none) :
    processOne names env a = (saved, Iteration.thrown) := by
  obtain ⟨e, he⟩ := validate_experience (save_eq_some hs).2.1
  have he2 : (hydrate a).experience = some e := he
  have hid : (hydrate a).applicantId = a.applicantId := rfl
  unfold processOne
  simp only [hc, if_true, he2, hf, hs, hid, hn]

theorem processOne_not_thrown (names : Nat → Option String) (env : Env) (a : Application)
    (h : (names a.applicantId).isSome = true) :
    (processOne names env a).2 ≠ Iteration.thrown := by
  rcases processOne_cases names env a with h0 | ⟨ns, c, _, _, _, ⟨hn, _⟩ | ⟨_, _, h1⟩⟩
  · rw [h0]
    simp
  · rw [hn] at h
    simp at h
  · rw [h1]
    simp

/-- When every applicant is found the loop does not throw: it visits every
document, and the results are the pushes of the iterations, in order. -/
theorem runBotPass_of_populated (names : Nat → Option String) (env : Nat → Env)
    (store : List Application) (hpop : populated names store) :
    (runBotPass names env store).thrown = false ∧
    (runBotPass names env store).store
      = store.map (fun a => (processOne names (env a._id) a).1) ∧
    (runBotPass names env store).results
      = store.filterMap (fun a => (processOne names (env a._id) a).2.result?) := by
  induction store with
  | nil => exact ⟨rfl, rfl, rfl⟩
  | cons a rest ih =>
    have hrest : populated names rest := fun b hb => hpop b (List.mem_cons_of_mem _ hb)
    obtain ⟨h1, h2, h3⟩ := ih hrest
    have hnt := processOne_not_thrown names (env a._id) a (hpop a (List.mem_cons_self _ _))
    unfold runBotPass
    cases hp : processOne names (env a._id) a with
    | mk doc how =>
      rw [hp] at hnt
      cases how with
      | skipped => simp [h1, h2, h3, hp, Iteration.result?]
      | pushed result => simp [h1, h2, h3, hp, Iteration.result?]
      | thrown => exact absurd rfl hnt

theorem botTrigger_bot (store : List Application) (names : Nat → Option String)
    (env : Nat → Env) (hpop : populated names store) :
    botTrigger store Role.bot names env =
      (⟨200, "Bot automation completed",
          (store.filterMap (fun a => (processOne names (env a._id) a).2.result?)).length,
          store.filterMap (fun a => (processOne names (env a._id) a).2.result?)⟩,
        store.map (fun a => (processOne names (env a._id) a).1)) := by
  have hg : roleMiddleware [Role.bot] Role.bot = true := by decide
  obtain ⟨h1, h2, h3⟩ := runBotPass_of_populated names env store hpop
  simp [botTrigger, hg, h1, h2, h3]

theorem populated_botTrigger (store : List Application) (role : Role)
    (names : Nat → Option String) (env : Nat → Env) (hpop : populated names store) :
    populated names (botTrigger store role names env).2 := by
  intro b hb
  obtain ⟨a, ha, hab⟩ := forall₂_mem_right (botTrigger_forall₂ store role names env) b hb
  have hsame : b.applicantId = a.applicantId := by
    rcases hab with h | h
    · rw [h]
    · rw [h]
      rcases processOne_fst_cases names (env a._id) a with h2 | ⟨ns, c, _, _, h2⟩
      · rw [h2]
      · rw [h2]
        rfl
  rw [hsame]
  exact hpop a ha

/-- The document stored under the `_id` of `a` after a pass that does not
throw. -/
theorem find?_pass (names : Nat → Option String) (env : Nat → Env)
    {store : List Application} {a : Application} (hpop : populated names store)
    (hnd : (store.map (fun b => b._id)).Nodup) (hmem : a ∈ store) :
    (botTrigger store Role.bot names env).2.find? (fun b => b._id == a._id)
      = some (processOne names (env a._id) a).1 := by
  rw [botTrigger_bot store names env hpop]
  show (store.map _).find? _ = _
  rw [List.find?_map]
  have hcomp : ((fun b : Application => b._id == a._id) ∘
      fun b => (processOne names (env b._id) b).1) = fun b => b._id == a._id := by
    funext b
    simp [processOne_id]
  rw [hcomp, find?_eq_of_nodup hnd hmem]
  rfl

/-- The results of a pass that does not throw, for the `_id` of `a`. -/
theorem results_pass (names : Nat → Option String) (env : Nat → Env)
    {store : List Application} {a : Application} (hpop : populated names store)
    (hnd : (store.map (fun b => b._id)).Nodup) (hmem : a ∈ store) :
    (botTrigger store Role.bot names env).1.results.filter
        (fun r => r.applicationId == a._id)
      = (processOne names (env a._id) a).2.result?.toList := by
  rw [botTrigger_bot store names env hpop]
  show (store.filterMap _).filter _ = _
  have hpush : ∀ (b : Application) (r : AutomationResult),
      (processOne names (env b._id) b).2.result? = some r → r.applicationId = b._id := by
    intro b r hres
    cases hh : (processOne names (env b._id) b).2 with
    | skipped => simp [hh, Iteration.result?] at hres
    | thrown => simp [hh, Iteration.result?] at hres
    | pushed r2 =>
      simp only [hh, Iteration.result?, Option.some.injEq] at hres
      subst hres
      exact (processOne_result hh).2.1
  have hother : ∀ l : List Application, (∀ b ∈ l, b._id ≠ a._id) →
      (l.filterMap (fun b => (processOne names (env b._id) b).2.result?)).filter
        (fun r => r.applicationId == a._id) = [] := by
    intro l hl
    rw [List.filter_eq_nil_iff]
    intro r hr
    rw [List.mem_filterMap] at hr
    obtain ⟨b, hb, hres⟩ := hr
    have := hpush b r hres
    simpa [this] using hl b hb
  clear hpop
  induction store with
  | nil => simp at hmem
  | cons x rest ih =>
    rw [List.map_cons, List.nodup_cons] at hnd
    have hsplit : (x :: rest).filterMap (fun b => (processOne names (env b._id) b).2.result?)
        = (processOne names (env x._id) x).2.result?.toList ++
          rest.filterMap (fun b => (processOne names (env b._id) b).2.result?) := by
      cases hx : (processOne names (env x._id) x).2.result? with
      | none => simp [List.filterMap_cons, hx]
      | some r => simp [List.filterMap_cons, hx]
    rw [hsplit, List.filter_append]
    by_cases hxa : x = a
    · subst hxa
      have hrest : ∀ b ∈ rest, b._id ≠ x._id := by
        intro b hb hid
        exact hnd.1 (List.mem_map.mpr ⟨b, hb, hid⟩)
      rw [hother rest hrest, List.append_nil]
      cases hres : (processOne names (env x._id) x).2.result? with
      | none => rfl
      | some r =>
        have := hpush x r hres
        simp [this]
    · have hmem2 : a ∈ rest := by
        rcases List.mem_cons.mp hmem with h | h
        · exact absurd h.symm hxa
        · exact h
      have hid : x._id ≠ a._id := by
        intro hid
        exact hnd.1 (List.mem_map.mpr ⟨a, hmem2, hid.symm⟩)
      rw [ih hnd.2 hmem2]
      cases hres : (processOne names (env x._id) x).2.result? with
      | none => simp
      | some r =>
        have := hpush x r hres
        simp [this, hid]

theorem validate_preSave {a : Application} (hv : validate a = true) :
    validate (preSave a) = true := by
  obtain ⟨e, he⟩ := validate_experience hv
  unfold validate at hv ⊢
  simpa [preSave, he] using hv

theorem validate_hydrate {a : Application} (hv : validate a = true) :
    validate (hydrate a) = true := by
  unfold validate at hv ⊢
  cases hs : a.status with
  | none =>
    rw [hs] at hv
    simpa [hydrate, hs, statusEnum] using hv
  | some s =>
    rw [hs] at hv
    simpa [hydrate, hs] using hv

theorem validate_advance {a : Application} (ns c : String) (now : Nat)
    (hv : validate a = true) (hns : ns ∈ statusEnum) (hc : c ≠ "") :
    validate (advance a ns c now) = true := by
  unfold validate at hv ⊢
  simp only [Bool.and_eq_true] at hv ⊢
  obtain ⟨⟨⟨h1, _⟩, h3⟩, h4⟩ := hv
  refine ⟨⟨⟨h1, by simpa [advance] using hns⟩, ?_⟩, ?_⟩
  · simp only [advance, List.all_append, Bool.and_eq_true, h3, true_and]
    simpa [validComment] using hc
  · simp only [advance, List.all_append, Bool.and_eq_true, h4, true_and]
    simp [validLog]

theorem automationFlow_comment {o : Option String} {r : Rat} {ns c : String}
    (h : automationFlow o r = some (ns, c)) : c ≠ "" := by
  unfold automationFlow at h
  split at h
  · simp only [Option.some.injEq, Prod.mk.injEq] at h
    rw [← h.2]
    decide
  · split at h
    · simp only [Option.some.injEq, Prod.mk.injEq] at h
      rw [← h.2]
      decide
    · split at h
      · simp only [Option.some.injEq, Prod.mk.injEq] at h
        rw [← h.2]
        split <;> decide
      · exact absurd h (by simp)

/-- A valid candidate whose write is accepted is saved. -/
theorem save_advance {a : Application} {env : Env} {ns c : String}
    (hv : validate a = true) (hw : env.writeOk = true)
    (hf : automationFlow (hydrate a).status env.random = some (ns, c)) :
    save env.writeOk (advance (hydrate a) ns c env.now)
      = some (preSave (advance (hydrate a) ns c env.now)) := by
  have := validate_advance ns c env.now (validate_hydrate hv) (automationFlow_enum hf)
    (automationFlow_comment hf)
  simp [save, this, hw]

theorem hydrate_of_status {a : Application} {s : String} (h : a.status = some s) :
    hydrate a = a := by
  cases a
  simp only [hydrate] at h ⊢
  simp [h]

/-- An iteration pushes a result exactly when the save succeeded and the
applicant is found. -/
theorem processOne_reported (names : Nat → Option String) (env : Env) (a : Application) :
    (processOne names env a).2.result?.isSome = true ↔
      (isCandidate a = true ∧ (names a.applicantId).isSome = true ∧ ∃ ns c saved,
        automationFlow (hydrate a).status env.random = some (ns, c) ∧
        save env.writeOk (advance (hydrate a) ns c env.now) = some saved) := by
  constructor
  · intro h
    rcases processOne_cases names env a with h0 | ⟨ns, c, hc, hf, hs, ⟨_, h1⟩ | ⟨name, hn, h1⟩⟩
    · rw [h0] at h
      simp [Iteration.result?] at h
    · rw [h1] at h
      simp [Iteration.result?] at h
    · exact ⟨hc, by rw [hn]; rfl, ns, c, _, hf, hs⟩
  · rintro ⟨hc, hn, ns, c, saved, hf, hs⟩
    obtain ⟨name, hname⟩ := Option.isSome_iff_exists.mp hn
    rw [processOne_of_save_some names env a saved ns c name hc hf hs hname]
    rfl

/-- A candidate whose save succeeds, in a pass where every applicant is found:
the stored document and the result. -/
theorem advanced_of_save (store : List Application) (names : Nat → Option String)
    (env : Nat → Env) (a saved : Application) (ns c name : String)
    (hpop : populated names store)
    (hnd : (store.map (fun b => b._id)).Nodup) (hmem : a ∈ store)
    (hc : isCandidate a = true)
    (hf : automationFlow (hydrate a).status (env a._id).random = some (ns, c))
    (hs : save (env a._id).writeOk (advance (hydrate a) ns c (env a._id).now) = some saved)
    (hn : names a.applicantId = some name) :
    (botTrigger store Role.bot names env).2.find? (fun b => b._id == a._id) = some saved ∧
    (botTrigger store Role.bot names env).1.results.filter
        (fun r => r.applicationId == a._id)
      = [⟨a._id, name, a.jobRole, (hydrate a).status, ns, c⟩] := by
  have hp := processOne_of_save_some names (env a._id) a saved ns c name hc hf hs hn
  constructor
  · rw [find?_pass names env hpop hnd hmem, hp]
  · rw [results_pass names env hpop hnd hmem, hp]
    rfl

/-! ## The bot pass, application by application -/

/-- The two deterministic steps, in a pass where every applicant is found.  In
a collection whose `_id`s are distinct, let `a` be a technical application at
`Applied` (then `t` is `Reviewed` and `c` is "Application automatically
reviewed by bot system") or at `Reviewed` (then `t` is `Interview` and `c` is
"Interview scheduled automatically"), and let the save of the advanced
document succeed (which needs the experience to be present).  After one bot
pass the document stored under its `_id` has status `t`, its logs are those of
`a` followed by exactly one entry (action "Bot Automation", the old status,
`t`, byRole bot, comment `c`), its comments are those of `a` followed by
exactly one entry (text `c`, authorRole bot), and the results hold exactly one
entry for its `_id`, with that oldStatus, newStatus and comment. -/
theorem deterministic_bot_steps (store : List Application) (names : Nat → Option String)
    (env : Nat → Env) (a : Application) (t c name : String)
    (hpop : populated names store)
    (hnd : (store.map (fun b => b._id)).Nodup) (hmem : a ∈ store)
    (htech : a.isTechnical = true)
    (hst : (a.status = some "Applied" ∧ t = "Reviewed" ∧
        c = "Application automatically reviewed by bot system") ∨
      (a.status = some "Reviewed" ∧ t = "Interview" ∧
        c = "Interview scheduled automatically"))
    (hsave : (save (env a._id).writeOk (advance a t c (env a._id).now)).isSome = true)
    (hname : names a.applicantId = some name) :
    ∃ b, (botTrigger store Role.bot names env).2.find? (fun x => x._id == a._id) = some b ∧
      b.status = some t ∧
      b.logs = a.logs ++
        [⟨"Bot Automation", a.status, some t, Role.bot, (env a._id).now, some c⟩] ∧
      b.comments = a.comments ++ [⟨c, Role.bot, (env a._id).now⟩] ∧
      (botTrigger store Role.bot names env).1.results.filter
          (fun r => r.applicationId == a._id)
        = [⟨a._id, name, a.jobRole, a.status, t, c⟩] := by
  obtain ⟨saved, hs⟩ := Option.isSome_iff_exists.mp hsave
  have hsaved := (save_eq_some hs).1
  have key : ∃ s, a.status = some s ∧ isCandidate a = true ∧
      automationFlow (some s) (env a._id).random = some (t, c) := by
    rcases hst with ⟨h1, h2, h3⟩ | ⟨h1, h2, h3⟩
    · exact ⟨_, h1, by simp [isCandidate, htech, h1], by rw [h2, h3]; rfl⟩
    · exact ⟨_, h1, by simp [isCandidate, htech, h1], by rw [h2, h3]; rfl⟩
  obtain ⟨s, hs1, hcand, hflow⟩ := key
  have hh := hydrate_of_status hs1
  have hf : automationFlow (hydrate a).status (env a._id).random = some (t, c) := by
    rw [hh, hs1]
    exact hflow
  have hs2 : save (env a._id).writeOk (advance (hydrate a) t c (env a._id).now)
      = some saved := by
    rw [hh]
    exact hs
  obtain ⟨h1, h2⟩ := advanced_of_save store names env a saved t c name hpop hnd hmem hcand
    hf hs2 hname
  rw [hh] at h2
  subst hsaved
  exact ⟨_, h1, rfl, rfl, rfl, h2⟩

/-- Scenario 4 of the spec: one pass over a technical application at
`Applied`. -/
theorem deterministic_bot_steps_witness :
    populated sampleNames technicalStore ∧
    (technicalStore.map (fun b => b._id)).Nodup ∧ technicalApplication ∈ technicalStore ∧
    technicalApplication.isTechnical = true ∧ technicalApplication.status = some "Applied" ∧
    ∃ b, (botTrigger technicalStore Role.bot sampleNames (fun _ => sampleEnv)).2.find?
        (fun x => x._id == technicalApplication._id) = some b ∧
      b.status = some "Reviewed" ∧
      b.logs = technicalApplication.logs ++
        [⟨"Bot Automation", technicalApplication.status, some "Reviewed", Role.bot,
          sampleEnv.now, some "Application automatically reviewed by bot system"⟩] ∧
      b.comments = technicalApplication.comments ++
        [⟨"Application automatically reviewed by bot system", Role.bot, sampleEnv.now⟩] ∧
      (botTrigger technicalStore Role.bot sampleNames (fun _ => sampleEnv)).1.results.filter
          (fun r => r.applicationId == technicalApplication._id)
        = [⟨technicalApplication._id, "Ada",
            technicalApplication.jobRole, technicalApplication.status, "Reviewed",
            "Application automatically reviewed by bot system"⟩] :=
  ⟨fun _ _ => rfl, by decide, by decide, rfl, rfl,
    deterministic_bot_steps technicalStore sampleNames (fun _ => sampleEnv)
      technicalApplication "Reviewed" "Application automatically reviewed by bot system"
      "Ada" (fun _ _ => rfl) (by decide) (by decide) rfl (Or.inl ⟨rfl, rfl, rfl⟩)
      (by decide) rfl⟩

/-- C14, evaluated.  A technical application at `Applied`, with experience,
whose applicant (user 6) does not exist; the database accepts the write.  The
pass saves the application at `Reviewed`, with the log entry and the comment;
then the read of the applicant name throws, the reply is 500 and there is no
result entry for the application that was saved. -/
theorem saved_but_unreported :
    orphanApplication.isTechnical = true ∧ orphanApplication.status = some "Applied" ∧
    orphanApplication.experience = some 2 ∧ sampleEnv.writeOk = true ∧
    orphanNames orphanApplication.applicantId = none ∧
    (botTrigger [orphanApplication] Role.bot orphanNames (fun _ => sampleEnv)).1
      = ⟨500, "Server error during bot automation", 0, []⟩ ∧
    (botTrigger [orphanApplication] Role.bot orphanNames (fun _ => sampleEnv)).2.map
      (fun a => (a.status, a.logs.length, a.comments.length))
      = [(some "Reviewed", 2, 1)] := by
  decide

/-- C15, as amended.  With the draw `r` an input, the switch maps status
`Interview` to `Offer` with comment "Interview passed - Offer extended
automatically" when `r > 3/10` and to `Rejected` with comment "Interview did
not meet requirements" otherwise, so `Offer` on the draws of the interval
from 3/10 to 1, of length 7/10.  In a collection whose `_id`s are distinct and
whose applicants are all found, for a technical application at `Interview`
whose document passes validation and whose write is accepted, the document
stored after the pass has status `Offer` exactly when the draw exceeds 3/10
and `Rejected` exactly when it does not, and the comment appended and the
result carry the matching text. -/
theorem interview_step (store : List Application) (names : Nat → Option String)
    (env : Nat → Env) (a : Application) (name : String)
    (hpop : populated names store)
    (hnd : (store.map (fun b => b._id)).Nodup) (hmem : a ∈ store)
    (htech : a.isTechnical = true) (hst : a.status = some "Interview")
    (hv : validate a = true) (hw : (env a._id).writeOk = true)
    (hname : names a.applicantId = some name) :
    (∀ r : Rat, automationFlow (some "Interview") r = some
      (if r > 3 / 10 then ("Offer", "Interview passed - Offer extended automatically")
        else ("Rejected", "Interview did not meet requirements"))) ∧
    ∃ b, (botTrigger store Role.bot names env).2.find? (fun x => x._id == a._id) = some b ∧
      (b.status = some "Offer" ↔ (env a._id).random > 3 / 10) ∧
      (b.status = some "Rejected" ↔ ¬ (env a._id).random > 3 / 10) ∧
      b.comments = a.comments ++
        [⟨if (env a._id).random > 3 / 10
            then "Interview passed - Offer extended automatically"
            else "Interview did not meet requirements", Role.bot, (env a._id).now⟩] ∧
      (botTrigger store Role.bot names env).1.results.filter
          (fun r => r.applicationId == a._id)
        = [⟨a._id, name, a.jobRole, some "Interview",
            if (env a._id).random > 3 / 10 then "Offer" else "Rejected",
            if (env a._id).random > 3 / 10
              then "Interview passed - Offer extended automatically"
              else "Interview did not meet requirements"⟩] := by
  have hflow : ∀ r : Rat, automationFlow (some "Interview") r = some
      (if r > 3 / 10 then ("Offer", "Interview passed - Offer extended automatically")
        else ("Rejected", "Interview did not meet requirements")) := by
    intro r
    by_cases hr : r > 3 / 10 <;> simp [automationFlow, hr]
  refine ⟨hflow, ?_⟩
  have hh := hydrate_of_status hst
  have hcand : isCandidate a = true := by simp [isCandidate, htech, hst]
  by_cases hr : (env a._id).random > 3 / 10
  · have hf : automationFlow (hydrate a).status (env a._id).random
        = some ("Offer", "Interview passed - Offer extended automatically") := by
      rw [hh, hst, hflow, if_pos hr]
    obtain ⟨h1, h2⟩ := advanced_of_save store names env a _ _ _ name hpop hnd hmem hcand hf
      (save_advance hv hw hf) hname
    rw [hh, hst] at h2
    refine ⟨_, h1, ?_, ?_, ?_, ?_⟩
    · exact ⟨fun _ => hr, fun _ => rfl⟩
    · constructor
      · intro h
        have h3 : (some "Offer" : Option String) = some "Rejected" := h
        exact absurd h3 (by decide)
      · intro h
        exact absurd hr h
    · rw [if_pos hr, hh]
      rfl
    · rw [if_pos hr, if_pos hr]
      exact h2
  · have hf : automationFlow (hydrate a).status (env a._id).random
        = some ("Rejected", "Interview did not meet requirements") := by
      rw [hh, hst, hflow, if_neg hr]
    obtain ⟨h1, h2⟩ := advanced_of_save store names env a _ _ _ name hpop hnd hmem hcand hf
      (save_advance hv hw hf) hname
    rw [hh, hst] at h2
    refine ⟨_, h1, ?_, ?_, ?_, ?_⟩
    · constructor
      · intro h
        have h3 : (some "Rejected" : Option String) = some "Offer" := h
        exact absurd h3 (by decide)
      · intro h
        exact absurd h hr
    · exact ⟨fun _ => hr, fun _ => rfl⟩
    · rw [if_neg hr, hh]
      rfl
    · rw [if_neg hr, if_neg hr]
      exact h2

/-- One pass over a technical application at `Interview`, with a draw of one
half. -/
theorem interview_step_witness :
    populated sampleNames [interviewApplication] ∧
    ([interviewApplication].map (fun b => b._id)).Nodup ∧
    interviewApplication.isTechnical = true ∧
    interviewApplication.status = some "Interview" ∧
    validate interviewApplication = true ∧ sampleEnv.writeOk = true ∧
    sampleNames interviewApplication.applicantId = some "Ada" ∧
    ∃ b, (botTrigger [interviewApplication] Role.bot sampleNames
        (fun _ => sampleEnv)).2.find? (fun x => x._id == interviewApplication._id) = some b ∧
      (b.status = some "Offer" ↔ sampleEnv.random > 3 / 10) ∧
      (b.status = some "Rejected" ↔ ¬ sampleEnv.random > 3 / 10) :=
  ⟨fun _ _ => rfl, by decide, rfl, rfl, by decide, rfl, rfl,
    (interview_step [interviewApplication] sampleNames (fun _ => sampleEnv)
      interviewApplication "Ada" (fun _ _ => rfl) (by decide) (by decide) rfl rfl
      (by decide) rfl rfl).2.imp
      (fun _ h => ⟨h.1, h.2.1, h.2.2.1⟩)⟩

/-- C15, counterexample.  A technical application at `Interview` whose stored
document has no `experience`, a draw of one half (above 3/10), every applicant
found and every write accepted: the pass leaves the collection as it was, so
the status is not set to `Offer`. -/
theorem interview_step_skipped :
    unratedApplication.isTechnical = true ∧ unratedApplication.status = some "Interview" ∧
    sampleEnv.random > 3 / 10 ∧ sampleEnv.writeOk = true ∧
    (botTrigger [unratedApplication] Role.bot sampleNames (fun _ => sampleEnv)).2
      = [unratedApplication] := by
  refine ⟨rfl, rfl, ?_, rfl, by decide⟩
  norm_num [sampleEnv]

/-- C16 (missing experience pre-check).  In a collection whose `_id`s are
distinct, an application whose stored document has no `experience` is stored
unchanged after a bot pass (the whole document, so its status, logs and
comments), and no entry of the results carries its `_id`. -/
theorem missing_experience_skipped (store : List Application) (role : Role)
    (names : Nat → Option String) (env : Nat → Env) (a : Application)
    (hnd : (store.map (fun b => b._id)).Nodup) (hmem : a ∈ store)
    (he : a.experience = none) :
    (botTrigger store role names env).2.find? (fun b => b._id == a._id) = some a ∧
    ∀ r ∈ (botTrigger store role names env).1.results, r.applicationId ≠ a._id :=
  untouched_of_processOne store role names env a hnd hmem
    (processOne_of_missing names (env a._id) a he)

/-- Scenario 6 of the spec: a pass over a technical application at `Applied`
without experience, next to one that the pass advances. -/
theorem missing_experience_skipped_witness :
    ([technicalApplication, staleApplication].map (fun b => b._id)).Nodup ∧
    staleApplication ∈ [technicalApplication, staleApplication] ∧
    staleApplication.isTechnical = true ∧ staleApplication.status = some "Applied" ∧
    staleApplication.experience = none ∧
    (botTrigger [technicalApplication, staleApplication] Role.bot sampleNames
      (fun _ => sampleEnv)).2.find? (fun b => b._id == staleApplication._id)
        = some staleApplication ∧
    ∀ r ∈ (botTrigger [technicalApplication, staleApplication] Role.bot sampleNames
      (fun _ => sampleEnv)).1.results, r.applicationId ≠ staleApplication._id :=
  ⟨by decide, by decide, rfl, rfl, rfl,
    missing_experience_skipped [technicalApplication, staleApplication] Role.bot sampleNames
      (fun _ => sampleEnv) staleApplication (by decide) (by decide) rfl⟩

/-- Failure isolation, in a pass where every applicant is found.  In a
collection whose `_id`s are distinct, let `a` be an application whose save
fails in the pass with environment `env` (the switch gives it a move and the
save of the advanced document is rejected), and let `env2` be any environment
that agrees with `env` for every other `_id` (so one where that save may
succeed).  Then the pass completes with reply 200 and a count equal to the
length of the results; `a` is stored unchanged and no result carries its
`_id`; every other application is stored, and reported, exactly as in the
pass with `env2`; and an application has an entry in the results exactly when
it is a candidate whose save succeeded. -/
theorem failure_isolation (store : List Application) (names : Nat → Option String)
    (env env2 : Nat → Env) (a : Application) (ns c : String)
    (hpop : populated names store)
    (hnd : (store.map (fun b => b._id)).Nodup) (hmem : a ∈ store)
    (hf : automationFlow (hydrate a).status (env a._id).random = some (ns, c))
    (hfail : save (env a._id).writeOk (advance (hydrate a) ns c (env a._id).now) = none)
    (hsame : ∀ i, i ≠ a._id → env2 i = env i) :
    (botTrigger store Role.bot names env).1.code = 200 ∧
    (botTrigger store Role.bot names env).1.processedApplications
      = (botTrigger store Role.bot names env).1.results.length ∧
    (botTrigger store Role.bot names env).2.find? (fun b => b._id == a._id) = some a ∧
    (∀ r ∈ (botTrigger store Role.bot names env).1.results, r.applicationId ≠ a._id) ∧
    (∀ b ∈ store, b ≠ a →
      (botTrigger store Role.bot names env).2.find? (fun x => x._id == b._id)
        = (botTrigger store Role.bot names env2).2.find? (fun x => x._id == b._id) ∧
      (botTrigger store Role.bot names env).1.results.filter
          (fun r => r.applicationId == b._id)
        = (botTrigger store Role.bot names env2).1.results.filter
          (fun r => r.applicationId == b._id)) ∧
    (∀ b ∈ store,
      (∃ r ∈ (botTrigger store Role.bot names env).1.results, r.applicationId = b._id) ↔
      (isCandidate b = true ∧ ∃ ns c saved,
        automationFlow (hydrate b).status (env b._id).random = some (ns, c) ∧
        save (env b._id).writeOk (advance (hydrate b) ns c (env b._id).now)
          = some saved)) := by
  have hp := processOne_of_save_none names (env a._id) a ns c hf hfail
  obtain ⟨h3, h4⟩ := untouched_of_processOne store Role.bot names env a hnd hmem hp
  refine ⟨by rw [botTrigger_bot store names env hpop],
    by rw [botTrigger_bot store names env hpop], h3, h4, ?_, ?_⟩
  · intro b hb hba
    have hid : b._id ≠ a._id := fun h => hba (eq_of_id_eq hnd hb hmem h)
    rw [find?_pass names env hpop hnd hb, find?_pass names env2 hpop hnd hb,
      results_pass names env hpop hnd hb, results_pass names env2 hpop hnd hb,
      hsame b._id hid]
    exact ⟨rfl, rfl⟩
  · intro b hb
    have hrep := processOne_reported names (env b._id) b
    have hfil := results_pass names env hpop hnd hb
    constructor
    · rintro ⟨r, hr, hid⟩
      have : r ∈ (botTrigger store Role.bot names env).1.results.filter
          (fun r => r.applicationId == b._id) := by
        rw [List.mem_filter]
        exact ⟨hr, by simpa using hid⟩
      rw [hfil] at this
      have hsome : (processOne names (env b._id) b).2.result?.isSome = true := by
        cases hres : (processOne names (env b._id) b).2.result? with
        | none => simp [hres] at this
        | some r2 => rfl
      obtain ⟨hc, _, hrest⟩ := hrep.mp hsome
      exact ⟨hc, hrest⟩
    · rintro ⟨hc, hrest⟩
      have hsome := hrep.mpr ⟨hc, hpop b hb, hrest⟩
      obtain ⟨r, hr⟩ := Option.isSome_iff_exists.mp hsome
      have : r ∈ (botTrigger store Role.bot names env).1.results.filter
          (fun r => r.applicationId == b._id) := by
        rw [hfil, hr]
        simp
      rw [List.mem_filter] at this
      exact ⟨r, this.1, by simpa using this.2⟩

/-- A pass over two candidates in which the database rejects the write of
application 1 and accepts that of application 4. -/
theorem failure_isolation_witness :
    populated sampleNames [technicalApplication, interviewApplication] ∧
    ([technicalApplication, interviewApplication].map (fun b => b._id)).Nodup ∧
    isCandidate technicalApplication = true ∧
    technicalApplication.experience = some 2 ∧
    save failingEnv.writeOk (advance (hydrate technicalApplication) "Reviewed"
      "Application automatically reviewed by bot system" failingEnv.now) = none ∧
    (botTrigger [technicalApplication, interviewApplication] Role.bot sampleNames
      (fun i => if i = 1 then failingEnv else sampleEnv)).1.code = 200 ∧
    (botTrigger [technicalApplication, interviewApplication] Role.bot sampleNames
      (fun i => if i = 1 then failingEnv else sampleEnv)).2.find?
        (fun b => b._id == technicalApplication._id) = some technicalApplication :=
  ⟨fun _ _ => rfl, by decide, by decide, rfl, by decide,
    (failure_isolation [technicalApplication, interviewApplication] sampleNames
      (fun i => if i = 1 then failingEnv else sampleEnv) (fun _ => sampleEnv)
      technicalApplication "Reviewed" "Application automatically reviewed by bot system"
      (fun _ _ => rfl) (by decide) (by decide) rfl (by decide)
      (fun i hi => by simp [show i ≠ 1 from hi])).1,
    (failure_isolation [technicalApplication, interviewApplication] sampleNames
      (fun i => if i = 1 then failingEnv else sampleEnv) (fun _ => sampleEnv)
      technicalApplication "Reviewed" "Application automatically reviewed by bot system"
      (fun _ _ => rfl) (by decide) (by decide) rfl (by decide)
      (fun i hi => by simp [show i ≠ 1 from hi])).2.2.1⟩

/-- C17, evaluated.  Three technical applications at `Applied`, with
experience.  The database rejects the write of the first and accepts the
others; the applicant of the second (user 6) does not exist.  The pass leaves
the first unchanged, saves the second at `Reviewed`, throws at the read of its
applicant name and never visits the third: the reply is 500 with no results,
although one save succeeded. -/
theorem pass_aborts_after_save :
    save failingEnv.writeOk (advance (hydrate technicalApplication) "Reviewed"
      "Application automatically reviewed by bot system" failingEnv.now) = none ∧
    orphanNames orphanApplication.applicantId = none ∧
    orphanNames laterApplication.applicantId = some "Ada" ∧
    (botTrigger [technicalApplication, orphanApplication, laterApplication] Role.bot
      orphanNames (fun i => if i = 1 then failingEnv else sampleEnv)).1
      = ⟨500, "Server error during bot automation", 0, []⟩ ∧
    (botTrigger [technicalApplication, orphanApplication, laterApplication] Role.bot
      orphanNames (fun i => if i = 1 then failingEnv else sampleEnv)).2.map
      (fun a => a.status) = [some "Applied", some "Reviewed", some "Applied"] := by
  decide

/-! ## Consecutive passes -/

/-- One pass, seen at a valid technical application that is not terminal and
whose write is accepted, when every applicant is found. -/
theorem pass_step (store : List Application) (names : Nat → Option String)
    (env : Nat → Env) (a : Application) (s ns c : String)
    (hpop : populated names store)
    (hnd : (store.map (fun b => b._id)).Nodup) (hmem : a ∈ store)
    (htech : a.isTechnical = true) (hv : validate a = true)
    (hw : (env a._id).writeOk = true) (hs : a.status = some s)
    (hnt : s ≠ "Offer" ∧ s ≠ "Rejected")
    (hf : automationFlow (some s) (env a._id).random = some (ns, c)) :
    populated names (botTrigger store Role.bot names env).2 ∧
    ((botTrigger store Role.bot names env).2.map (fun b => b._id)).Nodup ∧
    preSave (advance a ns c (env a._id).now) ∈ (botTrigger store Role.bot names env).2 ∧
    (botTrigger store Role.bot names env).2.find? (fun b => b._id == a._id)
      = some (preSave (advance a ns c (env a._id).now)) ∧
    validate (preSave (advance a ns c (env a._id).now)) = true := by
  have hh := hydrate_of_status hs
  have hcand : isCandidate a = true := by
    simp [isCandidate, htech, hs, hnt.1, hnt.2]
  have hf2 : automationFlow (hydrate a).status (env a._id).random = some (ns, c) := by
    rw [hh, hs]
    exact hf
  have hsave := save_advance hv hw hf2
  obtain ⟨name, hn⟩ := Option.isSome_iff_exists.mp (hpop a hmem)
  obtain ⟨h1, _⟩ := advanced_of_save store names env a _ ns c name hpop hnd hmem hcand hf2
    hsave hn
  rw [hh] at h1
  refine ⟨populated_botTrigger store Role.bot names env hpop, ?_,
    List.mem_of_find?_eq_some h1, h1, ?_⟩
  · rw [botTrigger_ids]
    exact hnd
  · exact validate_preSave (validate_advance ns c _ hv (automationFlow_enum hf)
      (automationFlow_comment hf))

theorem processOne_isTechnical (names : Nat → Option String) (env : Env) (a : Application) :
    (processOne names env a).1.isTechnical = a.isTechnical := by
  rcases processOne_fst_cases names env a with h | ⟨ns, c, _, _, h⟩
  · rw [h]
  · rw [h]
    rfl

/-- The document a successful save stores, whether or not the applicant is
found afterwards. -/
theorem processOne_fst_of_save_some (names : Nat → Option String) (env : Env)
    (a saved : Application) (ns c : String) (hc : isCandidate a = true)
    (hf : automationFlow (hydrate a).status env.random = some (ns, c))
    (hs : save env.writeOk (advance (hydrate a) ns c env.now) = some saved) :
    (processOne names env a).1 = saved := by
  cases hn : names a.applicantId with
  | none => rw [processOne_of_save_orphan names env a saved ns c hc hf hs hn]
  | some name => rw [processOne_of_save_some names env a saved ns c name hc hf hs hn]

theorem status_of_validate {a : Application} (hv : validate a = true) :
    a.status = none ∨ a.status = some "Applied" ∨ a.status = some "Reviewed" ∨
      a.status = some "Interview" ∨ a.status = some "Offer" ∨ a.status = some "Rejected" := by
  cases hs : a.status with
  | none => exact Or.inl rfl
  | some s =>
    have := validate_status hv hs
    simp only [statusEnum, List.mem_cons, List.mem_singleton, List.not_mem_nil, or_false] at this
    rcases this with h | h | h | h | h <;> simp [h]

/-- One iteration on a valid technical application whose write is accepted:
the document stays valid and technical, and moves one stage unless it is
terminal. -/
theorem processOne_stage (names : Nat → Option String) (env : Env) (a : Application)
    (htech : a.isTechnical = true) (hv : validate a = true) (hw : env.writeOk = true) :
    (processOne names env a).1.isTechnical = true ∧
    validate (processOne names env a).1 = true ∧
    stage (processOne names env a).1.status = min 3 (stage a.status + 1) := by
  have step : ∀ ns c : String, isCandidate a = true →
      automationFlow (hydrate a).status env.random = some (ns, c) →
      stage (some ns) = min 3 (stage a.status + 1) →
      (processOne names env a).1.isTechnical = true ∧
      validate (processOne names env a).1 = true ∧
      stage (processOne names env a).1.status = min 3 (stage a.status + 1) := by
    intro ns c hc hf hst
    rw [processOne_fst_of_save_some names env a _ ns c hc hf (save_advance hv hw hf)]
    exact ⟨htech, validate_preSave (validate_advance ns c _ (validate_hydrate hv)
      (automationFlow_enum hf) (automationFlow_comment hf)), hst⟩
  have stay : (a.status = some "Offer" ∨ a.status = some "Rejected") →
      (processOne names env a).1.isTechnical = true ∧
      validate (processOne names env a).1 = true ∧
      stage (processOne names env a).1.status = min 3 (stage a.status + 1) := by
    intro ht
    rw [processOne_terminal names env a ht]
    refine ⟨htech, hv, ?_⟩
    rcases ht with h | h <;> rw [h] <;> decide
  rcases status_of_validate hv with h | h | h | h | h | h
  · refine step "Reviewed" "Application automatically reviewed by bot system"
      (by simp [isCandidate, htech, h]) ?_ (by rw [h]; decide)
    simp [hydrate, h, automationFlow]
  · refine step "Reviewed" "Application automatically reviewed by bot system"
      (by simp [isCandidate, htech, h]) ?_ (by rw [h]; decide)
    simp [hydrate, h, automationFlow]
  · refine step "Interview" "Interview scheduled automatically"
      (by simp [isCandidate, htech, h]) ?_ (by rw [h]; decide)
    simp [hydrate, h, automationFlow]
  · by_cases hr : env.random > 3 / 10
    · refine step "Offer" "Interview passed - Offer extended automatically"
        (by simp [isCandidate, htech, h]) ?_ (by rw [h]; decide)
      simp [hydrate, h, automationFlow, hr]
    · refine step "Rejected" "Interview did not meet requirements"
        (by simp [isCandidate, htech, h]) ?_ (by rw [h]; decide)
      simp [hydrate, h, automationFlow, hr]
  · exact stay (Or.inl h)
  · exact stay (Or.inr h)

theorem stage_eq_three {status : Option String} (h : 3 ≤ stage status) :
    status = some "Offer" ∨ status = some "Rejected" := by
  unfold stage at h
  split at h
  · omega
  · split at h
    · omega
    · split at h
      · assumption
      · omega

theorem logs_three (a : Application) (n1 c1 n2 c2 n3 c3 : String) (t1 t2 t3 : Nat) :
    (preSave (advance (preSave (advance (preSave (advance a n1 c1 t1)) n2 c2 t2))
      n3 c3 t3)).logs = a.logs ++ [
        ⟨"Bot Automation", a.status, some n1, Role.bot, t1, some c1⟩,
        ⟨"Bot Automation", some n1, some n2, Role.bot, t2, some c2⟩,
        ⟨"Bot Automation", some n2, some n3, Role.bot, t3, some c3⟩] := by
  simp [preSave, advance]

/-- A pass whose first candidate is saved and whose applicant is not found:
the handler answers 500 with no results, the first document is stored as
saved and the rest of the collection is as it was. -/
theorem botTrigger_of_orphan_head (names : Nat → Option String) (env : Nat → Env)
    (a saved : Application) (rest : List Application) (ns c : String)
    (hc : isCandidate a = true)
    (hf : automationFlow (hydrate a).status (env a._id).random = some (ns, c))
    (hs : save (env a._id).writeOk (advance (hydrate a) ns c (env a._id).now) = some saved)
    (hn : names a.applicantId = none) :
    botTrigger (a :: rest) Role.bot names env
      = (⟨500, "Server error during bot automation", 0, []⟩, saved :: rest) := by
  have hg : roleMiddleware [Role.bot] Role.bot = true := by decide
  have hp := processOne_of_save_orphan names (env a._id) a saved ns c hc hf hs hn
  simp [botTrigger, hg, runBotPass, hp]

/-- The three-pass scenario, in passes where every applicant is found.  In a
collection whose `_id`s are distinct, let `a` be a technical application at
`Applied` that passes validation (so its experience is present), and let the
database accept its write in each of three consecutive passes.  After the
second pass the document stored under its `_id` is at `Interview`; after the
third it is at `Offer` or `Rejected` and its logs are those of `a` followed
by exactly three entries; a fourth pass, in any environment, stores the same
document and has no result with its `_id`. -/
theorem three_pass_scenario (store : List Application) (names : Nat → Option String)
    (env1 env2 env3 env4 : Nat → Env) (a : Application)
    (hpop : populated names store)
    (hnd : (store.map (fun b => b._id)).Nodup) (hmem : a ∈ store)
    (htech : a.isTechnical = true) (hst : a.status = some "Applied")
    (hv : validate a = true) (hw1 : (env1 a._id).writeOk = true)
    (hw2 : (env2 a._id).writeOk = true) (hw3 : (env3 a._id).writeOk = true) :
    ∃ b2 b3 e1 e2 e3,
      (botTrigger (botTrigger store Role.bot names env1).2 Role.bot names env2).2.find?
        (fun b => b._id == a._id) = some b2 ∧
      b2.status = some "Interview" ∧
      (botTrigger (botTrigger (botTrigger store Role.bot names env1).2 Role.bot names
        env2).2 Role.bot names env3).2.find? (fun b => b._id == a._id) = some b3 ∧
      (b3.status = some "Offer" ∨ b3.status = some "Rejected") ∧
      b3.logs = a.logs ++ [e1, e2, e3] ∧
      (botTrigger (botTrigger (botTrigger (botTrigger store Role.bot names env1).2 Role.bot
        names env2).2 Role.bot names env3).2 Role.bot names env4).2.find?
        (fun b => b._id == a._id) = some b3 ∧
      ∀ r ∈ (botTrigger (botTrigger (botTrigger (botTrigger store Role.bot names env1).2
        Role.bot names env2).2 Role.bot names env3).2 Role.bot names env4).1.results,
        r.applicationId ≠ a._id := by
  obtain ⟨p1, n1, m1, _, v1⟩ := pass_step store names env1 a "Applied" "Reviewed"
    "Application automatically reviewed by bot system" hpop hnd hmem htech hv hw1 hst
    (by decide) rfl
  obtain ⟨p2, n2, m2, f2, v2⟩ := pass_step _ names env2 _ "Reviewed" "Interview"
    "Interview scheduled automatically" p1 n1 m1 htech v1 hw2 rfl (by decide) rfl
  have third : ∃ ns c, (ns = "Offer" ∨ ns = "Rejected") ∧
      automationFlow (some "Interview") (env3 a._id).random = some (ns, c) := by
    by_cases hr : (env3 a._id).random > 3 / 10
    · exact ⟨"Offer", "Interview passed - Offer extended automatically", Or.inl rfl,
        by simp [automationFlow, hr]⟩
    · exact ⟨"Rejected", "Interview did not meet requirements", Or.inr rfl,
        by simp [automationFlow, hr]⟩
  obtain ⟨ns, c, hns, hf3⟩ := third
  obtain ⟨_, n3, m3, f3, _⟩ := pass_step _ names env3 _ "Interview" ns c p2 n2 m2 htech v2
    hw3 rfl (by decide) hf3
  have hterm : (preSave (advance (preSave (advance (preSave (advance a "Reviewed"
      "Application automatically reviewed by bot system" (env1 a._id).now)) "Interview"
      "Interview scheduled automatically" (env2 a._id).now)) ns c
      (env3 a._id).now)).status = some "Offer" ∨
      (preSave (advance (preSave (advance (preSave (advance a "Reviewed"
      "Application automatically reviewed by bot system" (env1 a._id).now)) "Interview"
      "Interview scheduled automatically" (env2 a._id).now)) ns c
      (env3 a._id).now)).status = some "Rejected" := by
    rcases hns with h | h
    · exact Or.inl (by rw [h]; rfl)
    · exact Or.inr (by rw [h]; rfl)
  obtain ⟨f4, r4⟩ := untouched_of_processOne _ Role.bot names env4 _ n3 m3
    (processOne_terminal names _ _ hterm)
  exact ⟨_, _, _, _, _, f2, rfl, f3, hterm, logs_three a _ _ _ _ _ _ _ _ _, f4, r4⟩

/-- Scenario 5 of the spec on the two technical applications, with a draw of
one half in every pass. -/
theorem three_pass_scenario_witness :
    populated sampleNames technicalStore ∧
    (technicalStore.map (fun b => b._id)).Nodup ∧ technicalApplication ∈ technicalStore ∧
    technicalApplication.isTechnical = true ∧ technicalApplication.status = some "Applied" ∧
    validate technicalApplication = true ∧ sampleEnv.writeOk = true ∧
    ∃ b2 b3 e1 e2 e3,
      (botTrigger (botTrigger technicalStore Role.bot sampleNames (fun _ => sampleEnv)).2
        Role.bot sampleNames (fun _ => sampleEnv)).2.find?
        (fun b => b._id == technicalApplication._id) = some b2 ∧
      b2.status = some "Interview" ∧
      (botTrigger (botTrigger (botTrigger technicalStore Role.bot sampleNames
        (fun _ => sampleEnv)).2 Role.bot sampleNames (fun _ => sampleEnv)).2 Role.bot
        sampleNames (fun _ => sampleEnv)).2.find?
        (fun b => b._id == technicalApplication._id) = some b3 ∧
      (b3.status = some "Offer" ∨ b3.status = some "Rejected") ∧
      b3.logs = technicalApplication.logs ++ [e1, e2, e3] :=
  ⟨fun _ _ => rfl, by decide, by decide, rfl, rfl, by decide, rfl,
    (three_pass_scenario technicalStore sampleNames (fun _ => sampleEnv)
      (fun _ => sampleEnv) (fun _ => sampleEnv) (fun _ => sampleEnv) technicalApplication
      (fun _ _ => rfl) (by decide) (by decide) rfl rfl (by decide) rfl rfl rfl).imp
      (fun _ h2 => h2.imp (fun _ h3 => h3.imp (fun _ h4 => h4.imp (fun _ h5 => h5.imp
        (fun _ h => ⟨h.1, h.2.1, h.2.2.1, h.2.2.2.1, h.2.2.2.2.1⟩)))))⟩

/-- C18, evaluated.  Two technical applications at `Applied`, with
experience and valid documents; the applicant of the first (user 6) does not
exist, the applicant of the second does, and the database accepts every
write.  Each of three consecutive passes saves the first application, throws
at the read of its applicant name and answers 500 without visiting the
second: after two passes the second is not at `Interview`, and after three
it is still stored as it was, at `Applied`. -/
theorem three_passes_blocked :
    laterApplication.isTechnical = true ∧ laterApplication.status = some "Applied" ∧
    laterApplication.experience = some 2 ∧ validate laterApplication = true ∧
    sampleEnv.writeOk = true ∧ orphanNames orphanApplication.applicantId = none ∧
    orphanNames laterApplication.applicantId = some "Ada" ∧
    (botTrigger [orphanApplication, laterApplication] Role.bot orphanNames
      (fun _ => sampleEnv)).1.code = 500 ∧
    (botTrigger (botTrigger [orphanApplication, laterApplication] Role.bot orphanNames
      (fun _ => sampleEnv)).2 Role.bot orphanNames (fun _ => sampleEnv)).1.code = 500 ∧
    (botTrigger (botTrigger [orphanApplication, laterApplication] Role.bot orphanNames
      (fun _ => sampleEnv)).2 Role.bot orphanNames (fun _ => sampleEnv)).2.map
      (fun a => a.status) = [some "Interview", some "Applied"] ∧
    (botTrigger (botTrigger (botTrigger [orphanApplication, laterApplication] Role.bot
      orphanNames (fun _ => sampleEnv)).2 Role.bot orphanNames (fun _ => sampleEnv)).2
      Role.bot orphanNames (fun _ => sampleEnv)).1.code = 500 ∧
    (botTrigger (botTrigger (botTrigger [orphanApplication, laterApplication] Role.bot
      orphanNames (fun _ => sampleEnv)).2 Role.bot orphanNames (fun _ => sampleEnv)).2
      Role.bot orphanNames (fun _ => sampleEnv)).2.find?
      (fun b => b._id == laterApplication._id) = some laterApplication := by
  have h2 : (botTrigger (botTrigger [orphanApplication, laterApplication] Role.bot
      orphanNames (fun _ => sampleEnv)).2 Role.bot orphanNames (fun _ => sampleEnv)).2
      = [preSave (advance (preSave (advance orphanApplication "Reviewed"
          "Application automatically reviewed by bot system" 1700000000)) "Interview"
          "Interview scheduled automatically" 1700000000), laterApplication] := by
    decide
  have hdraw : sampleEnv.random > 3 / 10 := by norm_num [sampleEnv]
  have h3 := botTrigger_of_orphan_head orphanNames (fun _ => sampleEnv)
    (preSave (advance (preSave (advance orphanApplication "Reviewed"
      "Application automatically reviewed by bot system" 1700000000)) "Interview"
      "Interview scheduled automatically" 1700000000))
    (preSave (advance (preSave (advance (preSave (advance orphanApplication "Reviewed"
      "Application automatically reviewed by bot system" 1700000000)) "Interview"
      "Interview scheduled automatically" 1700000000)) "Offer"
      "Interview passed - Offer extended automatically" 1700000000))
    [laterApplication] "Offer" "Interview passed - Offer extended automatically"
    (by decide) (by simp [hydrate, preSave, advance, automationFlow, hdraw]) (by decide)
    (by decide)
  refine ⟨rfl, rfl, rfl, by decide, rfl, by decide, by decide, by decide, by decide,
    by decide, ?_, ?_⟩
  · rw [h2, h3]
  · rw [h2, h3]
    decide

/-- C19, as amended.  When every technical application of the collection
passes validation (its experience is present and not negative, its status is
absent or one of the five values, its comments have a text and its logs an
action), the applicant of every application is found and the database accepts
every write of three consecutive passes, every technical application stored
after the third pass is at `Offer` or `Rejected`. -/
theorem bounded_convergence (store : List Application) (names : Nat → Option String)
    (env1 env2 env3 : Nat → Env)
    (hpop : populated names store)
    (hvalid : ∀ a ∈ store, a.isTechnical = true → validate a = true)
    (hw1 : ∀ i, (env1 i).writeOk = true) (hw2 : ∀ i, (env2 i).writeOk = true)
    (hw3 : ∀ i, (env3 i).writeOk = true) :
    ∀ b ∈ (botTrigger (botTrigger (botTrigger store Role.bot names env1).2 Role.bot names
        env2).2 Role.bot names env3).2,
      b.isTechnical = true → b.status = some "Offer" ∨ b.status = some "Rejected" := by
  intro b hb htech
  have p1 := populated_botTrigger store Role.bot names env1 hpop
  have p2 := populated_botTrigger _ Role.bot names env2 p1
  rw [botTrigger_bot _ names env3 p2, botTrigger_bot _ names env2 p1,
    botTrigger_bot store names env1 hpop] at hb
  simp only [List.map_map, List.mem_map, Function.comp] at hb
  obtain ⟨a, ha, hab⟩ := hb
  have hta : a.isTechnical = true := by
    rw [← hab] at htech
    simpa only [processOne_isTechnical] using htech
  obtain ⟨t1, v1, s1⟩ := processOne_stage names (env1 a._id) a hta (hvalid a ha hta)
    (hw1 _)
  obtain ⟨t2, v2, s2⟩ := processOne_stage names (env2 (processOne names (env1 a._id) a).1._id)
    _ t1 v1 (hw2 _)
  obtain ⟨_, _, s3⟩ := processOne_stage names
    (env3 (processOne names (env2 (processOne names (env1 a._id) a).1._id)
      (processOne names (env1 a._id) a).1).1._id) _ t2 v2 (hw3 _)
  rw [← hab]
  apply stage_eq_three
  rw [s3, s2, s1]
  omega

/-- Three passes over the two technical applications, with a draw of one half
in every pass. -/
theorem bounded_convergence_witness :
    populated sampleNames technicalStore ∧
    (∀ a ∈ technicalStore, a.isTechnical = true → validate a = true) ∧
    sampleEnv.writeOk = true ∧
    ∀ b ∈ (botTrigger (botTrigger (botTrigger technicalStore Role.bot sampleNames
        (fun _ => sampleEnv)).2 Role.bot sampleNames (fun _ => sampleEnv)).2 Role.bot
        sampleNames (fun _ => sampleEnv)).2,
      b.isTechnical = true → b.status = some "Offer" ∨ b.status = some "Rejected" :=
  ⟨fun _ _ => rfl, by decide, rfl,
    bounded_convergence technicalStore sampleNames (fun _ => sampleEnv) (fun _ => sampleEnv)
      (fun _ => sampleEnv) (fun _ _ => rfl) (by decide) (fun _ => rfl) (fun _ => rfl)
      (fun _ => rfl)⟩

/-- C19, counterexample.  A technical application at `Applied` whose stored
document has no `experience`: three passes in which every applicant is found
and the database accepts every write leave the collection as it was, so the
application is still at `Applied`. -/
theorem convergence_fails_without_experience :
    staleApplication.isTechnical = true ∧ staleApplication.status = some "Applied" ∧
    sampleEnv.writeOk = true ∧
    (botTrigger (botTrigger (botTrigger [staleApplication] Role.bot sampleNames
        (fun _ => sampleEnv)).2 Role.bot sampleNames (fun _ => sampleEnv)).2 Role.bot
        sampleNames (fun _ => sampleEnv)).2 = [staleApplication] := by
  decide

/-! ## Status updates on a terminal application -/

/-- C20, as amended.  Let the application read for the id be at `Offer` or
`Rejected`, pass validation, and let the request carry a status `t` among the
five values while the database accepts the write.  The update is denied, and
the collection is the same list of documents as before, when the role is not
let through the gate of the route (applicant on either route, bot on the
manual route) and when an admin uses the manual route on a technical
application.  Otherwise it is accepted: the manual update of an admin on a
non-technical application, and the generic update of an admin or of the bot on
any application, are answered 200, the document stored under the id has
status `t`, and the log entry appended records the terminal status as
oldStatus and `t` as newStatus. -/
theorem terminal_status_updates (store : List Application) (id : Nat) (a : Application)
    (body : UpdateBody) (env : Env) (t : String)
    (hfind : findById store id = some a)
    (hterm : a.status = some "Offer" ∨ a.status = some "Rejected")
    (hs : body.status = some t) (ht : t ∈ statusEnum)
    (hv : validate a = true) (hw : env.writeOk = true) :
    updateStatusManual store Role.applicant id body env = (forbidden, store) ∧
    updateStatusManual store Role.bot id body env = (forbidden, store) ∧
    updateStatus store Role.applicant id body env = (forbidden, store) ∧
    (a.isTechnical = true →
      updateStatusManual store Role.admin id body env
        = (⟨400, "Cannot manually update technical applications", none⟩, store)) ∧
    (a.isTechnical = false →
      ∃ saved entry,
        updateStatusManual store Role.admin id body env
          = (⟨200, "Application status updated successfully", some saved⟩,
              updateOne store saved) ∧
        (updateOne store saved).find? (fun b => b._id == id) = some saved ∧
        saved.status = some t ∧ saved.logs = a.logs ++ [entry] ∧
        (entry.oldStatus = some "Offer" ∨ entry.oldStatus = some "Rejected") ∧
        entry.newStatus = some t) ∧
    (∀ role, role = Role.admin ∨ role = Role.bot →
      ∃ saved entry,
        updateStatus store role id body env
          = (⟨200, "Application updated successfully", some saved⟩, updateOne store saved) ∧
        (updateOne store saved).find? (fun b => b._id == id) = some saved ∧
        saved.status = some t ∧ saved.logs = a.logs ++ [entry] ∧
        (entry.oldStatus = some "Offer" ∨ entry.oldStatus = some "Rejected") ∧
        entry.newStatus = some t) := by
  have facts : ∀ (action word : String) (r : Role), action ≠ "" →
      save env.writeOk (applyUpdate a action word r body env.now)
        = some (preSave (applyUpdate a action word r body env.now)) ∧
      (updateOne store (preSave (applyUpdate a action word r body env.now))).find?
        (fun b => b._id == id) = some (preSave (applyUpdate a action word r body env.now)) ∧
      (preSave (applyUpdate a action word r body env.now)).status = some t := by
    intro action word r hne
    have hval := validate_applyUpdate a action word r body env.now t hv hs ht hne
    have hst := applyUpdate_status a action word r body env.now
    rw [hs] at hst
    exact ⟨by simp [save, hval, hw], find?_updateOne_of_findById hfind _
      (applyUpdate_frame a action word r body env.now).1, hst⟩
  refine ⟨by simp [updateStatusManual, roleMiddleware],
    by simp [updateStatusManual, roleMiddleware],
    by simp [updateStatus, roleMiddleware],
    fun htech => updateStatusManual_of_technical store id a body env hfind htech, ?_, ?_⟩
  · intro htech
    obtain ⟨f1, f2, f3⟩ := facts "Manual Status Update" "Status manually changed from "
      Role.admin (by decide)
    refine ⟨_, _, ?_, f2, f3, applyUpdate_logs a _ _ _ body env.now, hterm, hs⟩
    simp [updateStatusManual, roleMiddleware, hfind, htech, f1]
  · intro role hrole
    have hgate : roleMiddleware [Role.admin, Role.bot] role = true := by
      rcases hrole with h | h <;> subst h <;> decide
    obtain ⟨f1, f2, f3⟩ := facts "Status Updated" "Status changed from " role (by decide)
    refine ⟨_, _, ?_, f2, f3, applyUpdate_logs a _ _ _ body env.now, hterm, hs⟩
    simp [updateStatus, hgate, hfind, f1]

/-- An admin sends `Applied` for the non-technical application at `Offer`. -/
theorem terminal_status_updates_witness :
    findById [closedApplication] 5 = some closedApplication ∧
    closedApplication.status = some "Offer" ∧ "Applied" ∈ statusEnum ∧
    validate closedApplication = true ∧ sampleEnv.writeOk = true ∧
    updateStatusManual [closedApplication] Role.applicant 5 ⟨some "Applied", none⟩ sampleEnv
      = (forbidden, [closedApplication]) ∧
    updateStatus [closedApplication] Role.applicant 5 ⟨some "Applied", none⟩ sampleEnv
      = (forbidden, [closedApplication]) :=
  ⟨by decide, rfl, by decide, by decide, rfl,
    (terminal_status_updates [closedApplication] 5 closedApplication ⟨some "Applied", none⟩
      sampleEnv "Applied" (by decide) (Or.inl rfl) rfl (by decide) (by decide) rfl).1,
    (terminal_status_updates [closedApplication] 5 closedApplication ⟨some "Applied", none⟩
      sampleEnv "Applied" (by decide) (Or.inl rfl) rfl (by decide) (by decide) rfl).2.2.1⟩

/-- C20, counterexample.  A non-technical application is at `Offer`; an admin
sends the manual update with status `Applied`, and the bot role sends the
generic update with status `Reviewed`: both are answered 200 and the stored
status is the requested one. -/
theorem terminal_status_overwritten :
    closedApplication.status = some "Offer" ∧
    (updateStatusManual [closedApplication] Role.admin 5 ⟨some "Applied", none⟩
      sampleEnv).1.code = 200 ∧
    (updateStatusManual [closedApplication] Role.admin 5 ⟨some "Applied", none⟩
      sampleEnv).2.map (fun a => a.status) = [some "Applied"] ∧
    (updateStatus [closedApplication] Role.bot 5 ⟨some "Reviewed", none⟩
      sampleEnv).1.code = 200 ∧
    (updateStatus [closedApplication] Role.bot 5 ⟨some "Reviewed", none⟩
      sampleEnv).2.map (fun a => a.status) = [some "Reviewed"] := by
  decide

/-! ## Accepted updates and the role gate -/

/-- A valid document, a status among the five values and an accepted write:
the save of the updated document succeeds. -/
theorem save_applyUpdate (a : Application) (action word : String) (r : Role)
    (body : UpdateBody) (env : Env) (t : String) (hv : validate a = true)
    (hs : body.status = some t) (ht : t ∈ statusEnum) (ha : action ≠ "")
    (hw : env.writeOk = true) :
    save env.writeOk (applyUpdate a action word r body env.now)
      = some (preSave (applyUpdate a action word r body env.now)) := by
  have hval := validate_applyUpdate a action word r body env.now t hv hs ht ha
  simp [save, hval, hw]

theorem manual_accepts (store : List Application) (id : Nat) (a : Application)
    (body : UpdateBody) (env : Env) (t : String) (hfind : findById store id = some a)
    (htech : a.isTechnical = false) (hs : body.status = some t) (ht : t ∈ statusEnum)
    (hv : validate a = true) (hw : env.writeOk = true) :
    updateStatusManual store Role.admin id body env =
      (⟨200, "Application status updated successfully",
          some (preSave (applyUpdate a "Manual Status Update"
            "Status manually changed from " Role.admin body env.now))⟩,
        updateOne store (preSave (applyUpdate a "Manual Status Update"
            "Status manually changed from " Role.admin body env.now))) := by
  have hsave := save_applyUpdate a "Manual Status Update" "Status manually changed from "
    Role.admin body env t hv hs ht (by decide) hw
  simp [updateStatusManual, roleMiddleware, hfind, htech, hsave]

theorem generic_accepts (store : List Application) (role : Role) (id : Nat)
    (a : Application) (body : UpdateBody) (env : Env) (t : String)
    (hrole : role = Role.admin ∨ role = Role.bot) (hfind : findById store id = some a)
    (hs : body.status = some t) (ht : t ∈ statusEnum)
    (hv : validate a = true) (hw : env.writeOk = true) :
    updateStatus store role id body env =
      (⟨200, "Application updated successfully",
          some (preSave (applyUpdate a "Status Updated" "Status changed from " role body
            env.now))⟩,
        updateOne store (preSave (applyUpdate a "Status Updated" "Status changed from " role
          body env.now))) := by
  have hgate : roleMiddleware [Role.admin, Role.bot] role = true := by
    rcases hrole with h | h <;> subst h <;> decide
  have hsave := save_applyUpdate a "Status Updated" "Status changed from " role body env t
    hv hs ht (by decide) hw
  simp [updateStatus, hgate, hfind, hsave]

theorem stored_applyUpdate {store : List Application} {id : Nat} {a : Application}
    (hfind : findById store id = some a) (action word : String) (r : Role)
    (body : UpdateBody) (now : Nat) (t : String) (hs : body.status = some t) :
    (updateOne store (preSave (applyUpdate a action word r body now))).find?
      (fun b => b._id == id) = some (preSave (applyUpdate a action word r body now)) ∧
    (preSave (applyUpdate a action word r body now)).status = some t := by
  have hst := applyUpdate_status a action word r body now
  rw [hs] at hst
  exact ⟨find?_updateOne_of_findById hfind _ (applyUpdate_frame a action word r body now).1,
    hst⟩

/-- C21, as amended.  For a non-technical application
whose document passes validation (so its current status is any of the five
values, or absent), every requested status `t` among the five values and an
accepted write, the manual update of an admin is answered 200 and the document
stored under the id has status `t`; nothing relates `t` to the current
status. -/
theorem admin_override (store : List Application) (id : Nat) (a : Application)
    (body : UpdateBody) (env : Env) (t : String) (hfind : findById store id = some a)
    (htech : a.isTechnical = false) (hs : body.status = some t) (ht : t ∈ statusEnum)
    (hv : validate a = true) (hw : env.writeOk = true) :
    ∃ saved,
      updateStatusManual store Role.admin id body env
        = (⟨200, "Application status updated successfully", some saved⟩,
            updateOne store saved) ∧
      (updateOne store saved).find? (fun b => b._id == id) = some saved ∧
      saved.status = some t := by
  obtain ⟨h1, h2⟩ := stored_applyUpdate hfind "Manual Status Update"
    "Status manually changed from " Role.admin body env.now t hs
  exact ⟨_, manual_accepts store id a body env t hfind htech hs ht hv hw, h1, h2⟩

/-- The open question of the spec: an admin takes the application at `Offer`
back to `Applied`. -/
theorem admin_override_witness :
    findById [closedApplication] 5 = some closedApplication ∧
    closedApplication.isTechnical = false ∧ closedApplication.status = some "Offer" ∧
    "Applied" ∈ statusEnum ∧ validate closedApplication = true ∧ sampleEnv.writeOk = true ∧
    ∃ saved,
      updateStatusManual [closedApplication] Role.admin 5 ⟨some "Applied", none⟩ sampleEnv
        = (⟨200, "Application status updated successfully", some saved⟩,
            updateOne [closedApplication] saved) ∧
      (updateOne [closedApplication] saved).find? (fun b => b._id == 5) = some saved ∧
      saved.status = some "Applied" :=
  ⟨by decide, rfl, rfl, by decide, by decide, rfl,
    admin_override [closedApplication] 5 closedApplication ⟨some "Applied", none⟩ sampleEnv
      "Applied" (by decide) rfl rfl (by decide) (by decide) rfl⟩

/-- C21, counterexample.  A non-technical application at `Applied` whose
stored document has no `experience`; an admin asks for `Reviewed` and the
database accepts writes.  The save fails at the `required` validator of
`experience`: the update is not answered 200 and the application is stored
as it was, at `Applied`. -/
theorem admin_override_fails_without_experience :
    findById [legacyApplication] 9 = some (hydrate legacyApplication) ∧
    legacyApplication.isTechnical = false ∧ legacyApplication.status = some "Applied" ∧
    "Reviewed" ∈ statusEnum ∧ sampleEnv.writeOk = true ∧
    (updateStatusManual [legacyApplication] Role.admin 9 ⟨some "Reviewed", none⟩
      sampleEnv).1.code = 500 ∧
    (updateStatusManual [legacyApplication] Role.admin 9 ⟨some "Reviewed", none⟩
      sampleEnv).2 = [legacyApplication] := by
  decide

/-- C23, as amended.  For an existing
application, technical or not, whose document passes validation, a requested
status `t` among the five values and an accepted write: the generic update is
answered 200 and stores status `t` when the role is admin and when it is bot,
and it is answered 403 with the collection unchanged when the role is
applicant. -/
theorem generic_role_gate (store : List Application) (id : Nat) (a : Application)
    (body : UpdateBody) (env : Env) (t : String) (hfind : findById store id = some a)
    (hs : body.status = some t) (ht : t ∈ statusEnum)
    (hv : validate a = true) (hw : env.writeOk = true) :
    (∃ saved,
      updateStatus store Role.admin id body env
        = (⟨200, "Application updated successfully", some saved⟩, updateOne store saved) ∧
      (updateOne store saved).find? (fun b => b._id == id) = some saved ∧
      saved.status = some t) ∧
    (∃ saved,
      updateStatus store Role.bot id body env
        = (⟨200, "Application updated successfully", some saved⟩, updateOne store saved) ∧
      (updateOne store saved).find? (fun b => b._id == id) = some saved ∧
      saved.status = some t) ∧
    updateStatus store Role.applicant id body env = (forbidden, store) := by
  obtain ⟨h1, h2⟩ := stored_applyUpdate hfind "Status Updated" "Status changed from "
    Role.admin body env.now t hs
  obtain ⟨h3, h4⟩ := stored_applyUpdate hfind "Status Updated" "Status changed from "
    Role.bot body env.now t hs
  exact ⟨⟨_, generic_accepts store Role.admin id a body env t (Or.inl rfl) hfind hs ht hv hw,
      h1, h2⟩,
    ⟨_, generic_accepts store Role.bot id a body env t (Or.inr rfl) hfind hs ht hv hw,
      h3, h4⟩,
    by simp [updateStatus, roleMiddleware]⟩

/-- The three roles ask for `Interview` on the technical application 1. -/
theorem generic_role_gate_witness :
    findById technicalStore 1 = some technicalApplication ∧
    technicalApplication.isTechnical = true ∧ "Interview" ∈ statusEnum ∧
    validate technicalApplication = true ∧ sampleEnv.writeOk = true ∧
    (updateStatus technicalStore Role.admin 1 ⟨some "Interview", none⟩ sampleEnv).1.code
      = 200 ∧
    (updateStatus technicalStore Role.bot 1 ⟨some "Interview", none⟩ sampleEnv).1.code
      = 200 ∧
    updateStatus technicalStore Role.applicant 1 ⟨some "Interview", none⟩ sampleEnv
      = (forbidden, technicalStore) :=
  ⟨by decide, rfl, by decide, by decide, rfl, by decide, by decide,
    (generic_role_gate technicalStore 1 technicalApplication ⟨some "Interview", none⟩
      sampleEnv "Interview" (by decide) rfl (by decide) (by decide) rfl).2.2⟩

/-- C23, counterexample.  A technical application at `Applied` whose stored
document has no `experience`; an admin, then the bot role, asks for
`Reviewed` through the generic update and the database accepts writes.  The
save fails at the `required` validator of `experience`: neither update is
answered 200 and the application is stored as it was. -/
theorem generic_update_fails_without_experience :
    findById [staleApplication] 3 = some (hydrate staleApplication) ∧
    "Reviewed" ∈ statusEnum ∧ sampleEnv.writeOk = true ∧
    (updateStatus [staleApplication] Role.admin 3 ⟨some "Reviewed", none⟩
      sampleEnv).1.code = 500 ∧
    (updateStatus [staleApplication] Role.admin 3 ⟨some "Reviewed", none⟩
      sampleEnv).2 = [staleApplication] ∧
    (updateStatus [staleApplication] Role.bot 3 ⟨some "Reviewed", none⟩
      sampleEnv).1.code = 500 ∧
    (updateStatus [staleApplication] Role.bot 3 ⟨some "Reviewed", none⟩
      sampleEnv).2 = [staleApplication] := by
  decide

/-! ## The frame of the bot pass -/

theorem processOne_of_not_candidate (names : Nat → Option String) (env : Env)
    (a : Application) (h : isCandidate a = false) :
    processOne names env a = (a, Iteration.skipped) := by
  simp [processOne, h]

/-- C22 (bot pass frame).  In a collection whose `_id`s are distinct, an
application with `isTechnical = false` is stored unchanged after a bot pass
(the whole document), and no entry of the results carries its `_id`. -/
theorem bot_pass_frame (store : List Application) (role : Role) (names : Nat → Option String)
    (env : Nat → Env) (a : Application) (hnd : (store.map (fun b => b._id)).Nodup)
    (hmem : a ∈ store) (htech : a.isTechnical = false) :
    (botTrigger store role names env).2.find? (fun b => b._id == a._id) = some a ∧
    ∀ r ∈ (botTrigger store role names env).1.results, r.applicationId ≠ a._id :=
  untouched_of_processOne store role names env a hnd hmem
    (processOne_of_not_candidate names (env a._id) a (by simp [isCandidate, htech]))

/-- A pass over the non-technical application of scenario 1, at `Applied`,
and a technical application at `Interview`. -/
theorem bot_pass_frame_witness :
    ((sampleStore ++ [interviewApplication]).map (fun b => b._id)).Nodup ∧
    preSave (newApplication 1 1 sampleCreate 1700000000)
      ∈ sampleStore ++ [interviewApplication] ∧
    (preSave (newApplication 1 1 sampleCreate 1700000000)).isTechnical = false ∧
    (preSave (newApplication 1 1 sampleCreate 1700000000)).status = some "Applied" ∧
    (botTrigger (sampleStore ++ [interviewApplication]) Role.bot sampleNames
      (fun _ => sampleEnv)).2.find? (fun b => b._id == 1)
        = some (preSave (newApplication 1 1 sampleCreate 1700000000)) ∧
    ∀ r ∈ (botTrigger (sampleStore ++ [interviewApplication]) Role.bot sampleNames
      (fun _ => sampleEnv)).1.results, r.applicationId ≠ 1 :=
  ⟨by decide, by decide, rfl, rfl,
    bot_pass_frame (sampleStore ++ [interviewApplication]) Role.bot sampleNames
      (fun _ => sampleEnv) (preSave (newApplication 1 1 sampleCreate 1700000000))
      (by decide) (by decide) rfl⟩

/-! ## Log entries written by the bot role -/

/-- C24, as amended.  Every log entry that a bot pass appends has byRole bot
and one of the four pairs (Applied, Reviewed), (Reviewed, Interview),
(Interview, Offer), (Interview, Rejected).  A generic update that the bot role
gets accepted appends exactly one entry with byRole bot, whose oldStatus is
the status of the application as read and whose newStatus is the requested
status, whatever the two are. -/
theorem bot_authored_entries (store : List Application) (names : Nat → Option String)
    (env : Nat → Env) (id : Nat) (a : Application) (body : UpdateBody) (env0 : Env)
    (hfind : findById store id = some a)
    (hok : (updateStatus store Role.bot id body env0).1.code = 200) :
    List.Forall₂
      (fun before after => after.logs = before.logs ∨
        ∃ e, after.logs = before.logs ++ [e] ∧ e.byRole = Role.bot ∧
          legalBotMove e.oldStatus e.newStatus)
      store (botTrigger store Role.bot names env).2 ∧
    ∃ saved e,
      (updateStatus store Role.bot id body env0).2.find? (fun b => b._id == id)
        = some saved ∧
      saved.logs = a.logs ++ [e] ∧ e.byRole = Role.bot ∧
      e.oldStatus = a.status ∧ e.newStatus = body.status := by
  constructor
  · refine (botTrigger_forall₂ store Role.bot names env).imp ?_
    intro x y hxy
    rcases hxy with h | h
    · exact Or.inl (by rw [h])
    · rw [h]
      rcases processOne_logs names (env x._id) x with h0 | ⟨e, h1, _, h3, h4⟩
      · exact Or.inl h0
      · exact Or.inr ⟨e, h1, h3, h4⟩
  · rw [generic_success store Role.bot id body env0 a hfind hok]
    exact ⟨_, _, find?_updateOne_of_findById hfind _
      (applyUpdate_frame a _ _ _ body env0.now).1,
      applyUpdate_logs a _ _ _ body env0.now, rfl, rfl, rfl⟩

/-- The bot role sends `Offer` for the technical application at `Applied`. -/
theorem bot_authored_entries_witness :
    findById technicalStore 1 = some technicalApplication ∧
    (updateStatus technicalStore Role.bot 1 ⟨some "Offer", none⟩ sampleEnv).1.code = 200 ∧
    ∃ saved e,
      (updateStatus technicalStore Role.bot 1 ⟨some "Offer", none⟩ sampleEnv).2.find?
        (fun b => b._id == 1) = some saved ∧
      saved.logs = technicalApplication.logs ++ [e] ∧ e.byRole = Role.bot ∧
      e.oldStatus = technicalApplication.status ∧
      e.newStatus = (⟨some "Offer", none⟩ : UpdateBody).status :=
  ⟨by decide, by decide,
    (bot_authored_entries technicalStore sampleNames (fun _ => sampleEnv) 1
      technicalApplication ⟨some "Offer", none⟩ sampleEnv (by decide) (by decide)).2⟩

/-- C24, counterexample.  The bot role sends the generic update with status
`Offer` for a technical application at `Applied`: the update is answered 200
and the entry it appends has byRole bot, oldStatus `Applied` and newStatus
`Offer`, which is none of the four pairs. -/
theorem bot_role_skips_stages :
    technicalApplication.status = some "Applied" ∧
    (updateStatus [technicalApplication] Role.bot 1 ⟨some "Offer", none⟩ sampleEnv).1.code
      = 200 ∧
    ((updateStatus [technicalApplication] Role.bot 1 ⟨some "Offer", none⟩ sampleEnv).2.map
      (fun a => (a.logs.drop technicalApplication.logs.length).map
        (fun e => (e.byRole, e.oldStatus, e.newStatus))))
      = [[(Role.bot, some "Applied", some "Offer")]] ∧
    ¬ legalBotMove (some "Applied") (some "Offer") := by
  refine ⟨rfl, by decide, by decide, ?_⟩
  unfold legalBotMove
  decide

/-! ## The technical flag at creation -/

theorem create_success (store : List Application) (role : Role) (userId : Nat)
    (body : CreateBody) (env : Env)
    (hok : (createApplication store role userId body env).1.code = 201) :
    createApplication store role userId body env =
      (⟨201, "Application created successfully",
          some (preSave (newApplication (nextId store) userId body env.now))⟩,
        store ++ [preSave (newApplication (nextId store) userId body env.now)]) := by
  unfold createApplication at hok ⊢
  by_cases hg : roleMiddleware [Role.applicant] role = true
  · simp only [hg, if_true] at hok ⊢
    cases hf : findOne store userId body.jobRole with
    | some d => simp [hf] at hok
    | none =>
      simp only [hf] at hok ⊢
      cases hs : save env.writeOk (newApplication (nextId store) userId body env.now) with
      | none => simp [hs, serverError] at hok
      | some saved =>
        have := (save_eq_some hs).1
        subst this
        rfl
  · simp [hg, forbidden] at hok

/-- C25, as amended.  For every creation answered 201, the `isTechnical` of
the created application is the `isTechnical` value of the request body, and
false when the body has none; the handler does not read the job role.  When
the body is the one the client builds for the selected job role `J`, the
created application refers to `J` and its `isTechnical` is the flag of `J`. -/
theorem technical_flag_from_request (store : List Application) (role : Role)
    (userId : Nat) (body : CreateBody) (env : Env)
    (hok : (createApplication store role userId body env).1.code = 201) :
    ∃ app,
      createApplication store role userId body env
        = (⟨201, "Application created successfully", some app⟩, store ++ [app]) ∧
      app.isTechnical = body.isTechnical.getD false ∧
      ∀ (J : JobRole) (experience : Option Int) (skillsArray : List String)
        (additionalNotes : String),
        body = handleSubmitApplication J experience skillsArray additionalNotes →
          app.jobRole = J._id ∧ app.isTechnical = J.isTechnical := by
  refine ⟨_, create_success store role userId body env hok, rfl, ?_⟩
  intro J experience skillsArray additionalNotes hbody
  subst hbody
  exact ⟨rfl, rfl⟩

/-- The client applies for the technical job role 8. -/
theorem technical_flag_from_request_witness :
    (createApplication [] Role.applicant 1
      (handleSubmitApplication sampleJob (some 4) ["Go"] "") sampleEnv).1.code = 201 ∧
    ∃ app,
      createApplication [] Role.applicant 1
          (handleSubmitApplication sampleJob (some 4) ["Go"] "") sampleEnv
        = (⟨201, "Application created successfully", some app⟩, [] ++ [app]) ∧
      app.isTechnical = (handleSubmitApplication sampleJob (some 4) ["Go"] "").isTechnical.getD
        false :=
  ⟨by decide,
    (technical_flag_from_request [] Role.applicant 1
      (handleSubmitApplication sampleJob (some 4) ["Go"] "") sampleEnv (by decide)).imp
      (fun _ h => ⟨h.1, h.2.1⟩)⟩

/-- C25, counterexample.  Job role 8 is technical; a request for job role 8
whose body says `isTechnical: false` is answered 201 and the created
application is not technical. -/
theorem technical_flag_not_from_job :
    sampleJob._id = 8 ∧ sampleJob.isTechnical = true ∧
    (createApplication [] Role.applicant 1 ⟨8, some false, some 4, none, none, none⟩
      sampleEnv).1.code = 201 ∧
    (createApplication [] Role.applicant 1 ⟨8, some false, some 4, none, none, none⟩
      sampleEnv).2.map (fun a => (a.jobRole, a.isTechnical)) = [(8, false)] := by
  decide

/-! ## Identity fields -/

theorem sameIdentity_refl (a : Application) : sameIdentity a a :=
  ⟨rfl, rfl, rfl, rfl⟩

theorem sameIdentity_applyUpdate (s : Application) (action word : String) (r : Role)
    (body : UpdateBody) (now : Nat) :
    sameIdentity s (preSave (applyUpdate (hydrate s) action word r body now)) := by
  obtain ⟨h1, h2, h3, h4, _⟩ := applyUpdate_frame (hydrate s) action word r body now
  exact ⟨h1, h2, h3, h4⟩

theorem sameIdentity_processOne (names : Nat → Option String) (env : Env)
    (a : Application) : sameIdentity a (processOne names env a).1 := by
  rcases processOne_fst_cases names env a with h | ⟨ns, c, _, _, h⟩
  · rw [h]
    exact sameIdentity_refl a
  · rw [h]
    exact ⟨rfl, rfl, rfl, rfl⟩

theorem sameIdentity_updateOne (store : List Application) (id : Nat) (doc : Application)
    (hdoc : doc._id = id)
    (hg : ∀ s, store.find? (fun b => b._id == id) = some s → sameIdentity s doc)
    (i : Nat) (a : Application) (h : store[i]? = some a) :
    ∃ b, (updateOne store doc)[i]? = some b ∧ sameIdentity a b := by
  rcases updateOne_getElem? store doc i a h with h1 | ⟨h1, h2⟩
  · exact ⟨a, h1, sameIdentity_refl a⟩
  · rw [hdoc] at h2
    exact ⟨doc, h1, hg a h2⟩

/-- C26 (immutable identity fields).  For every request (a creation, a manual
or a generic status update, a bot pass) and every document of the collection,
the document at the same place afterwards has the same `_id`, applicantId,
jobRole and isTechnical. -/
theorem identity_fields_immutable (store : List Application) (request : Request) (i : Nat)
    (a : Application) (h : store[i]? = some a) :
    ∃ b, (serve store request)[i]? = some b ∧ b._id = a._id ∧
      b.applicantId = a.applicantId ∧ b.jobRole = a.jobRole ∧
      b.isTechnical = a.isTechnical := by
  have key : ∃ b, (serve store request)[i]? = some b ∧ sameIdentity a b := by
    cases request with
    | create role userId body env =>
      rcases create_store store role userId body env with h1 | ⟨_, h1⟩
      · exact ⟨a, by simp only [serve]; rw [h1]; exact h, sameIdentity_refl a⟩
      · refine ⟨a, ?_, sameIdentity_refl a⟩
        simp only [serve]
        rw [h1, List.getElem?_append_left (List.getElem?_eq_some.mp h).1]
        exact h
    | manual role id body env =>
      rcases manual_store store role id body env with h1 | ⟨s, hs, h1, hid⟩
      · exact ⟨a, by simp only [serve]; rw [h1]; exact h, sameIdentity_refl a⟩
      · simp only [serve]
        rw [h1]
        refine sameIdentity_updateOne store id _ hid ?_ i a h
        intro s2 hs2
        rw [hs] at hs2
        cases hs2
        exact sameIdentity_applyUpdate s _ _ _ body env.now
    | generic role id body env =>
      rcases generic_store store role id body env with h1 | ⟨s, hs, h1, hid⟩
      · exact ⟨a, by simp only [serve]; rw [h1]; exact h, sameIdentity_refl a⟩
      · simp only [serve]
        rw [h1]
        refine sameIdentity_updateOne store id _ hid ?_ i a h
        intro s2 hs2
        rw [hs] at hs2
        cases hs2
        exact sameIdentity_applyUpdate s _ _ _ body env.now
    | trigger role names env =>
      obtain ⟨b, hb, hab⟩ := forall₂_getElem? (botTrigger_forall₂ store role names env) i a h
      refine ⟨b, by simp only [serve]; exact hb, ?_⟩
      rcases hab with h1 | h1
      · rw [h1]
        exact sameIdentity_refl a
      · rw [h1]
        exact sameIdentity_processOne names (env a._id) a
  obtain ⟨b, hb, hg⟩ := key
  exact ⟨b, hb, hg.1, hg.2.1, hg.2.2.1, hg.2.2.2⟩

/-- The bot role moves the technical application 1 to `Offer` through the
generic route. -/
theorem identity_fields_immutable_witness :
    technicalStore[0]? = some technicalApplication ∧
    ∃ b, (serve technicalStore
        (Request.generic Role.bot 1 ⟨some "Offer", some "hired"⟩ sampleEnv))[0]? = some b ∧
      b._id = technicalApplication._id ∧
      b.applicantId = technicalApplication.applicantId ∧
      b.jobRole = technicalApplication.jobRole ∧
      b.isTechnical = technicalApplication.isTechnical :=
  ⟨rfl, identity_fields_immutable technicalStore
    (Request.generic Role.bot 1 ⟨some "Offer", some "hired"⟩ sampleEnv) 0
    technicalApplication rfl⟩

/-! ## Validation at creation -/

theorem validate_newApplication_of_bad (id userId : Nat) (body : CreateBody) (now : Nat)
    (hbad : body.experience = none ∨ ∃ e, body.experience = some e ∧ e < 0) :
    validate (newApplication id userId body now) = false := by
  rcases hbad with h | ⟨e, h, hneg⟩
  · simp [validate, newApplication, h]
  · simp [validate, newApplication, h, hneg]

/-- C27, as amended.  For a request of an applicant whose experience is
missing or negative, the creation fails and nothing is written: the reply is
not the 201 of a created application, it carries no application, and the
collection is as it was.  When the applicant already has an application for
the job role, the failure is the one of the duplicate check, 400 "You have
already applied for this job position". -/
theorem creation_validation (store : List Application) (userId : Nat) (body : CreateBody)
    (env : Env) (hbad : body.experience = none ∨ ∃ e, body.experience = some e ∧ e < 0) :
    (createApplication store Role.applicant userId body env).1.code ≠ 201 ∧
    (createApplication store Role.applicant userId body env).1.application = none ∧
    (createApplication store Role.applicant userId body env).2 = store ∧
    ((findOne store userId body.jobRole).isSome = true →
      (createApplication store Role.applicant userId body env).1
        = ⟨400, "You have already applied for this job position", none⟩) := by
  have hv := validate_newApplication_of_bad (nextId store) userId body env.now hbad
  cases hf : findOne store userId body.jobRole with
  | some d => simp [createApplication, roleMiddleware, hf]
  | none => simp [createApplication, roleMiddleware, hf, save_of_invalid hv, serverError]

/-- An application with experience -2 on the empty collection, and one
without experience from an applicant who has already applied for the job
role. -/
theorem creation_validation_witness :
    ((⟨7, some false, some (-2), none, none, none⟩ : CreateBody).experience = none ∨
      ∃ e, (⟨7, some false, some (-2), none, none, none⟩ : CreateBody).experience = some e ∧
        e < 0) ∧
    (createApplication [] Role.applicant 1 ⟨7, some false, some (-2), none, none, none⟩
      sampleEnv).1.code ≠ 201 ∧
    (createApplication [] Role.applicant 1 ⟨7, some false, some (-2), none, none, none⟩
      sampleEnv).1.application = none ∧
    (createApplication [] Role.applicant 1 ⟨7, some false, some (-2), none, none, none⟩
      sampleEnv).2 = [] ∧
    (createApplication sampleStore Role.applicant 1
      ⟨7, some false, none, none, none, none⟩ sampleEnv).1
        = ⟨400, "You have already applied for this job position", none⟩ :=
  ⟨Or.inr ⟨-2, rfl, by decide⟩,
    (creation_validation [] 1 ⟨7, some false, some (-2), none, none, none⟩ sampleEnv
      (Or.inr ⟨-2, rfl, by decide⟩)).1,
    (creation_validation [] 1 ⟨7, some false, some (-2), none, none, none⟩ sampleEnv
      (Or.inr ⟨-2, rfl, by decide⟩)).2.1,
    (creation_validation [] 1 ⟨7, some false, some (-2), none, none, none⟩ sampleEnv
      (Or.inr ⟨-2, rfl, by decide⟩)).2.2.1,
    (creation_validation sampleStore 1 ⟨7, some false, none, none, none, none⟩ sampleEnv
      (Or.inl rfl)).2.2.2 (by decide)⟩

/-- C27, counterexample.  Applicant 1 has applied for job role 7 and applies
again without experience: the reply is the one of the duplicate check, the
same reply as for the body of scenario 1, whose experience is 3; it says
nothing about the experience. -/
theorem missing_experience_on_duplicate :
    (⟨7, some false, none, none, none, none⟩ : CreateBody).experience = none ∧
    createApplication sampleStore Role.applicant 1 ⟨7, some false, none, none, none, none⟩
        sampleEnv
      = (⟨400, "You have already applied for this job position", none⟩, sampleStore) ∧
    sampleCreate.experience = some 3 ∧
    createApplication sampleStore Role.applicant 1 sampleCreate sampleEnv
      = (⟨400, "You have already applied for this job position", none⟩, sampleStore) := by
  decide

/-! ## The pre-save hook -/

theorem preSaveHook_experience (d : HookDocument) :
    (preSaveHook d).experience =
      if d.experience = JsValue.undefined ∨ d.experience = JsValue.null
        then JsValue.number 0 else d.experience := by
  unfold preSaveHook
  by_cases h1 : d.experience = JsValue.undefined ∨ d.experience = JsValue.null <;>
    by_cases h2 : d.skills.isArray = true <;>
    by_cases h3 : d.additionalNotes.isString = true <;>
    simp [h1, h2, h3]

theorem preSaveHook_skills (d : HookDocument) :
    (preSaveHook d).skills = if d.skills.isArray then d.skills else JsValue.array [] := by
  unfold preSaveHook
  by_cases h1 : d.experience = JsValue.undefined ∨ d.experience = JsValue.null <;>
    by_cases h2 : d.skills.isArray = true <;>
    by_cases h3 : d.additionalNotes.isString = true <;>
    simp [h1, h2, h3]

theorem preSaveHook_additionalNotes (d : HookDocument) :
    (preSaveHook d).additionalNotes =
      if d.additionalNotes.isString then d.additionalNotes else JsValue.string "" := by
  unfold preSaveHook
  by_cases h1 : d.experience = JsValue.undefined ∨ d.experience = JsValue.null <;>
    by_cases h2 : d.skills.isArray = true <;>
    by_cases h3 : d.additionalNotes.isString = true <;>
    simp [h1, h2, h3]

theorem preSaveHook_others (d : HookDocument) :
    (preSaveHook d)._id = d._id ∧ (preSaveHook d).applicantId = d.applicantId ∧
    (preSaveHook d).jobRole = d.jobRole ∧ (preSaveHook d).isTechnical = d.isTechnical ∧
    (preSaveHook d).status = d.status ∧ (preSaveHook d).comments = d.comments ∧
    (preSaveHook d).logs = d.logs := by
  unfold preSaveHook
  by_cases h1 : d.experience = JsValue.undefined ∨ d.experience = JsValue.null <;>
    by_cases h2 : d.skills.isArray = true <;>
    by_cases h3 : d.additionalNotes.isString = true <;>
    simp [h1, h2, h3]

theorem HookDocument.ext_fields {d e : HookDocument} (h1 : d._id = e._id)
    (h2 : d.applicantId = e.applicantId) (h3 : d.jobRole = e.jobRole)
    (h4 : d.isTechnical = e.isTechnical) (h5 : d.experience = e.experience)
    (h6 : d.skills = e.skills) (h7 : d.additionalNotes = e.additionalNotes)
    (h8 : d.status = e.status) (h9 : d.comments = e.comments) (h10 : d.logs = e.logs) :
    d = e := by
  cases d
  cases e
  simp only [HookDocument.mk.injEq]
  exact ⟨h1, h2, h3, h4, h5, h6, h7, h8, h9, h10⟩

/-- C29 (pre-save normalisation).  After the hook, `experience` is the number
0 when it was undefined or null and its prior value otherwise, so it is
neither undefined nor null; `skills` is its prior value when that was an array
and the empty array otherwise, so it is an array; `additionalNotes` is its
prior value when that was a string and the empty string otherwise, so it is a
string; every other path is as before; and the hook applied twice gives the
document of the hook applied once.  On a typed document the hook is the
`preSave` that `save` runs. -/
theorem preSave_normalisation (d : HookDocument) :
    ((preSaveHook d).experience =
      if d.experience = JsValue.undefined ∨ d.experience = JsValue.null
        then JsValue.number 0 else d.experience) ∧
    (preSaveHook d).experience ≠ JsValue.undefined ∧
    (preSaveHook d).experience ≠ JsValue.null ∧
    ((preSaveHook d).skills = if d.skills.isArray then d.skills else JsValue.array []) ∧
    (preSaveHook d).skills.isArray = true ∧
    ((preSaveHook d).additionalNotes =
      if d.additionalNotes.isString then d.additionalNotes else JsValue.string "") ∧
    (preSaveHook d).additionalNotes.isString = true ∧
    ((preSaveHook d)._id = d._id ∧ (preSaveHook d).applicantId = d.applicantId ∧
      (preSaveHook d).jobRole = d.jobRole ∧ (preSaveHook d).isTechnical = d.isTechnical ∧
      (preSaveHook d).status = d.status ∧ (preSaveHook d).comments = d.comments ∧
      (preSaveHook d).logs = d.logs) ∧
    preSaveHook (preSaveHook d) = preSaveHook d ∧
    ∀ a : Application, preSaveHook (toHookDocument a) = toHookDocument (preSave a) := by
  have he := preSaveHook_experience d
  have hs := preSaveHook_skills d
  have hn := preSaveHook_additionalNotes d
  have he1 : (preSaveHook d).experience ≠ JsValue.undefined := by
    rw [he]
    split
    · simp
    · rename_i h
      exact fun h2 => h (Or.inl h2)
  have he2 : (preSaveHook d).experience ≠ JsValue.null := by
    rw [he]
    split
    · simp
    · rename_i h
      exact fun h2 => h (Or.inr h2)
  have hs1 : (preSaveHook d).skills.isArray = true := by
    rw [hs]
    split
    · assumption
    · rfl
  have hn1 : (preSaveHook d).additionalNotes.isString = true := by
    rw [hn]
    split
    · assumption
    · rfl
  refine ⟨he, he1, he2, hs, hs1, hn, hn1, preSaveHook_others d, ?_, ?_⟩
  · obtain ⟨o1, o2, o3, o4, o5, o6, o7⟩ := preSaveHook_others (preSaveHook d)
    refine HookDocument.ext_fields o1 o2 o3 o4 ?_ ?_ ?_ o5 o6 o7
    · rw [preSaveHook_experience (preSaveHook d)]
      simp [he1, he2]
    · rw [preSaveHook_skills (preSaveHook d)]
      simp [hs1]
    · rw [preSaveHook_additionalNotes (preSaveHook d)]
      simp [hn1]
  · intro a
    obtain ⟨o1, o2, o3, o4, o5, o6, o7⟩ := preSaveHook_others (toHookDocument a)
    refine HookDocument.ext_fields o1 o2 o3 o4 ?_ ?_ ?_ o5 o6 o7
    · rw [preSaveHook_experience]
      cases h : a.experience <;> simp [toHookDocument, preSave, h]
    · rw [preSaveHook_skills]
      simp [toHookDocument, preSave, JsValue.isArray]
    · rw [preSaveHook_additionalNotes]
      cases h : a.additionalNotes <;> simp [toHookDocument, preSave, h, JsValue.isString]

/-! ## The bot activity log -/

/-- When the applicant of every entry is found, no push throws. -/
theorem collectBotLogs_of_found (names : Nat → Option String)
    (entries : List (Application × LogEntry))
    (h : ∀ p ∈ entries, (names p.1.applicantId).isSome = true) :
    collectBotLogs names entries
      = some (entries.map
          (fun p => toBotLog ((names p.1.applicantId).getD "") p.1 p.2)) := by
  induction entries with
  | nil => rfl
  | cons p rest ih =>
    obtain ⟨app, log⟩ := p
    have hrest := ih (fun q hq => h q (List.mem_cons_of_mem _ hq))
    obtain ⟨name, hn⟩ := Option.isSome_iff_exists.mp (h (app, log) (List.mem_cons_self _ _))
    have hn2 : names app.applicantId = some name := hn
    simp [collectBotLogs, hn2, hrest]

theorem mem_botEntries {applications : List Application} {p : Application × LogEntry}
    (h : p ∈ botEntries applications) : p.1 ∈ applications := by
  simp only [botEntries, List.mem_flatMap, List.mem_map] at h
  obtain ⟨app, happ, log, _, hp⟩ := h
  rw [← hp]
  exact happ

theorem botEntries_map_hydrate (names : Nat → Option String) (l : List Application) :
    (botEntries (l.map hydrate)).map
        (fun p => toBotLog ((names p.1.applicantId).getD "") p.1 p.2)
      = l.flatMap (fun app => (app.logs.filter (fun log => log.byRole == Role.bot)).map
          (toBotLog ((names app.applicantId).getD "") app)) := by
  induction l with
  | nil => rfl
  | cons a rest ih =>
    simp only [botEntries, List.map_cons, List.flatMap_cons, List.map_append,
      List.map_map] at ih ⊢
    rw [ih]
    rfl

/-- The listing when the applicant of every application is found.  For the
bot role the listing is answered 200; it is a permutation of the log entries
with byRole bot of the applications with `isTechnical = true`, each with the
id, applicant name and job role of its application (so it holds every such
entry as often as it is stored, and nothing else: no entry of another role,
none of a non-technical application); and it is ordered by timestamp,
descending. -/
theorem bot_logs_listing (store : List Application) (names : Nat → Option String)
    (hpop : populated names store) :
    (getBotLogs store Role.bot names).1 = 200 ∧
    (getBotLogs store Role.bot names).2.Perm
      ((store.filter (fun a => a.isTechnical)).flatMap
        (fun app => (app.logs.filter (fun log => log.byRole == Role.bot)).map
          (toBotLog ((names app.applicantId).getD "") app))) ∧
    (∀ e, e ∈ (getBotLogs store Role.bot names).2 ↔
      ∃ app ∈ store, app.isTechnical = true ∧
        ∃ log ∈ app.logs, log.byRole = Role.bot ∧
          e = toBotLog ((names app.applicantId).getD "") app log) ∧
    (getBotLogs store Role.bot names).2.Pairwise (fun a b => b.timestamp ≤ a.timestamp) := by
  have hg : roleMiddleware [Role.bot] Role.bot = true := by decide
  have h1 : (findTechnicalSorted store).Perm
      ((store.filter (fun a => a.isTechnical)).map hydrate) :=
    List.perm_insertionSort _ _
  have hfound : ∀ p ∈ botEntries (findTechnicalSorted store),
      (names p.1.applicantId).isSome = true := by
    intro p hp
    have hmem := h1.mem_iff.mp (mem_botEntries hp)
    rw [List.mem_map] at hmem
    obtain ⟨a, ha, hap⟩ := hmem
    rw [← hap]
    exact hpop a (List.mem_filter.mp ha).1
  have hcollect := collectBotLogs_of_found names _ hfound
  have hget : getBotLogs store Role.bot names
      = (200, sortBotLogs ((botEntries (findTechnicalSorted store)).map
          (fun p => toBotLog ((names p.1.applicantId).getD "") p.1 p.2))) := by
    simp [getBotLogs, hg, hcollect]
  have hperm : (getBotLogs store Role.bot names).2.Perm
      ((store.filter (fun a => a.isTechnical)).flatMap
        (fun app => (app.logs.filter (fun log => log.byRole == Role.bot)).map
          (toBotLog ((names app.applicantId).getD "") app))) := by
    rw [hget]
    refine (List.perm_insertionSort _ _).trans ?_
    have h2 : (botEntries (findTechnicalSorted store)).Perm
        (botEntries ((store.filter (fun a => a.isTechnical)).map hydrate)) :=
      List.Perm.flatMap_right _ h1
    have h3 := h2.map (fun p => toBotLog ((names p.1.applicantId).getD "") p.1 p.2)
    rw [botEntries_map_hydrate] at h3
    exact h3
  refine ⟨by rw [hget], hperm, ?_, ?_⟩
  · intro e
    rw [hperm.mem_iff]
    simp only [List.mem_flatMap, List.mem_filter, List.mem_map, beq_iff_eq]
    constructor
    · rintro ⟨app, ⟨happ, htech⟩, log, ⟨hlog, hrole⟩, he⟩
      exact ⟨app, happ, htech, log, hlog, hrole, he.symm⟩
    · rintro ⟨app, happ, htech, log, hlog, hrole, he⟩
      exact ⟨app, ⟨happ, htech⟩, log, ⟨hlog, hrole⟩, he.symm⟩
  · rw [hget]
    exact @List.sorted_insertionSort BotLog (fun a b => b.timestamp ≤ a.timestamp) _
      ⟨fun a b => Nat.le_total b.timestamp a.timestamp⟩
      ⟨fun _ _ _ hab hbc => Nat.le_trans hbc hab⟩ _

/-- The listing of the two technical applications: the one bot entry, the
move to `Offer` of application 2. -/
theorem bot_logs_listing_witness :
    populated sampleNames technicalStore ∧
    getBotLogs technicalStore Role.bot sampleNames
      = (200, [⟨2, "Ada", 8, "Bot Automation", some "Interview", some "Offer", Role.bot,
          1700000500, some "Interview passed - Offer extended automatically"⟩]) ∧
    (getBotLogs technicalStore Role.bot sampleNames).2.Pairwise
      (fun a b => b.timestamp ≤ a.timestamp) :=
  ⟨fun _ _ => rfl, by decide,
    (bot_logs_listing technicalStore sampleNames (fun _ _ => rfl)).2.2.2⟩

/-- C30, evaluated.  The collection holds the technical application 2, with
one bot entry and an applicant that is found, and the technical application 6
as the aborted pass of the bot left it: saved with a bot entry, its applicant
(user 6) not found.  The listing is answered 500 and holds no entry, not even
the one of application 2. -/
theorem bot_logs_listing_aborts :
    orphanNames offeredApplication.applicantId = some "Ada" ∧
    (offeredApplication.logs.filter (fun log => log.byRole == Role.bot)).length = 1 ∧
    (botTrigger [orphanApplication] Role.bot orphanNames (fun _ => sampleEnv)).2.map
      (fun a => (a._id, a.isTechnical, orphanNames a.applicantId,
        (a.logs.filter (fun log => log.byRole == Role.bot)).length))
      = [(6, true, none, 1)] ∧
    getBotLogs (offeredApplication ::
        (botTrigger [orphanApplication] Role.bot orphanNames (fun _ => sampleEnv)).2)
      Role.bot orphanNames = (500, []) ∧
    getBotLogs [offeredApplication] Role.bot orphanNames
      = (200, [⟨2, "Ada", 8, "Bot Automation", some "Interview", some "Offer", Role.bot,
          1700000500, some "Interview passed - Offer extended automatically"⟩]) := by
  decide

end ATS
